import Mathlib

/-!
# raymath-cpp: swizzle accessors and 4×4 matrix algebra

A shallow embedding of `src/raymath.hpp`.

* Scalars: the C++ `float` is replaced by an arbitrary scalar type. The swizzle
  code only moves values, so it is embedded over any type `α`; the matrix code
  is embedded over a commutative ring (a field where a division occurs), i.e.
  exact arithmetic.
* Unions: every aggregate is a structure whose fields are the named members of
  the anonymous `struct` of the union, in declaration order. The `array`
  member of the same union is the list of those fields in declaration (that is,
  address) order. An access outside an array is undefined behaviour in C++ and
  is `none` here.
* References: the parameter `const V& rhs` of the swizzle assignment is read
  inside the loop, so the embedding records what it refers to: an aggregate of
  its own, or the storage that the assignment writes.
* `Matrix` (the plain struct of the wrapped C library) and `Mat4` are overlaid
  in one union and converted into each other by reinterpretation; both have the
  named cells `m0 .. m15` in the same order, so one structure stands for both.
-/

namespace Raymath

/-! ## Mat4 -/

/-- Source: `struct Mat4`: the anonymous struct of the union, fields in declaration
order (`float m0, m4, m8, m12; float m1, m5, m9, m13; ...`). The constructor
`Mat4.mk` is the 16-argument C++ constructor, which takes its arguments in the
same order. -/
@[ext]
structure Mat4 (R : Type) where
  m0 : R
  m4 : R
  m8 : R
  m12 : R
  m1 : R
  m5 : R
  m9 : R
  m13 : R
  m2 : R
  m6 : R
  m10 : R
  m14 : R
  m3 : R
  m7 : R
  m11 : R
  m15 : R
deriving DecidableEq, Repr

section Mat4Defs

variable {R : Type}

/-- Source: `float array[16]`: the union member that overlays the named cells, listed in
address order. -/
def Mat4.array (M : Mat4 R) : List R :=
  [M.m0, M.m4, M.m8, M.m12,
   M.m1, M.m5, M.m9, M.m13,
   M.m2, M.m6, M.m10, M.m14,
   M.m3, M.m7, M.m11, M.m15]

/-- The matrix whose `array` member holds the given sixteen floats. -/
def Mat4.ofArray : List R → Option (Mat4 R)
  | [a0, a1, a2, a3, a4, a5, a6, a7, a8, a9, a10, a11, a12, a13, a14, a15] =>
      some ⟨a0, a1, a2, a3, a4, a5, a6, a7, a8, a9, a10, a11, a12, a13, a14, a15⟩
  | _ => none

/-- Source: `float operator[]( size_t idx ) const { return array[idx]; }` -/
def Mat4.opIndex (M : Mat4 R) (idx : Nat) : Option R :=
  M.array[idx]?

/-- Source: `float& operator[]( size_t idx ) { return array[idx]; }` followed by a store
of `c` through the returned reference. -/
def Mat4.opIndexSet (M : Mat4 R) (idx : Nat) (c : R) : Option (Mat4 R) :=
  if idx < M.array.length then Mat4.ofArray (M.array.set idx c) else none

/-- The named cell `m_k`, for `k = 0 .. 15` (the last branch is `k = 15`). -/
def Mat4.cell (M : Mat4 R) (k : Fin 16) : R :=
  match k.val with
  | 0 => M.m0
  | 1 => M.m1
  | 2 => M.m2
  | 3 => M.m3
  | 4 => M.m4
  | 5 => M.m5
  | 6 => M.m6
  | 7 => M.m7
  | 8 => M.m8
  | 9 => M.m9
  | 10 => M.m10
  | 11 => M.m11
  | 12 => M.m12
  | 13 => M.m13
  | 14 => M.m14
  | _ => M.m15

/-- The entry `m[row][col]` in the column-major convention of the
specification: the named cell `m(4·col+row)`. -/
def Mat4.entry (M : Mat4 R) (row col : Fin 4) : R :=
  M.cell ⟨4 * col.val + row.val, by omega⟩

/-- Source: `Mat4::Multiply( const Matrix& right ) const`, with `left = *this`. -/
def Mat4.Multiply [Add R] [Mul R] (left right : Mat4 R) : Mat4 R where
  m0 := left.m0*right.m0 + left.m1*right.m4 + left.m2*right.m8 + left.m3*right.m12
  m1 := left.m0*right.m1 + left.m1*right.m5 + left.m2*right.m9 + left.m3*right.m13
  m2 := left.m0*right.m2 + left.m1*right.m6 + left.m2*right.m10 + left.m3*right.m14
  m3 := left.m0*right.m3 + left.m1*right.m7 + left.m2*right.m11 + left.m3*right.m15
  m4 := left.m4*right.m0 + left.m5*right.m4 + left.m6*right.m8 + left.m7*right.m12
  m5 := left.m4*right.m1 + left.m5*right.m5 + left.m6*right.m9 + left.m7*right.m13
  m6 := left.m4*right.m2 + left.m5*right.m6 + left.m6*right.m10 + left.m7*right.m14
  m7 := left.m4*right.m3 + left.m5*right.m7 + left.m6*right.m11 + left.m7*right.m15
  m8 := left.m8*right.m0 + left.m9*right.m4 + left.m10*right.m8 + left.m11*right.m12
  m9 := left.m8*right.m1 + left.m9*right.m5 + left.m10*right.m9 + left.m11*right.m13
  m10 := left.m8*right.m2 + left.m9*right.m6 + left.m10*right.m10 + left.m11*right.m14
  m11 := left.m8*right.m3 + left.m9*right.m7 + left.m10*right.m11 + left.m11*right.m15
  m12 := left.m12*right.m0 + left.m13*right.m4 + left.m14*right.m8 + left.m15*right.m12
  m13 := left.m12*right.m1 + left.m13*right.m5 + left.m14*right.m9 + left.m15*right.m13
  m14 := left.m12*right.m2 + left.m13*right.m6 + left.m14*right.m10 + left.m15*right.m14
  m15 := left.m12*right.m3 + left.m13*right.m7 + left.m14*right.m11 + left.m15*right.m15

/-- The free `Mat4 operator*( const Matrix& left, const Matrix& right )`. -/
def operatorMul [Add R] [Mul R] (left right : Mat4 R) : Mat4 R where
  m0 := left.m0*right.m0 + left.m1*right.m4 + left.m2*right.m8 + left.m3*right.m12
  m1 := left.m0*right.m1 + left.m1*right.m5 + left.m2*right.m9 + left.m3*right.m13
  m2 := left.m0*right.m2 + left.m1*right.m6 + left.m2*right.m10 + left.m3*right.m14
  m3 := left.m0*right.m3 + left.m1*right.m7 + left.m2*right.m11 + left.m3*right.m15
  m4 := left.m4*right.m0 + left.m5*right.m4 + left.m6*right.m8 + left.m7*right.m12
  m5 := left.m4*right.m1 + left.m5*right.m5 + left.m6*right.m9 + left.m7*right.m13
  m6 := left.m4*right.m2 + left.m5*right.m6 + left.m6*right.m10 + left.m7*right.m14
  m7 := left.m4*right.m3 + left.m5*right.m7 + left.m6*right.m11 + left.m7*right.m15
  m8 := left.m8*right.m0 + left.m9*right.m4 + left.m10*right.m8 + left.m11*right.m12
  m9 := left.m8*right.m1 + left.m9*right.m5 + left.m10*right.m9 + left.m11*right.m13
  m10 := left.m8*right.m2 + left.m9*right.m6 + left.m10*right.m10 + left.m11*right.m14
  m11 := left.m8*right.m3 + left.m9*right.m7 + left.m10*right.m11 + left.m11*right.m15
  m12 := left.m12*right.m0 + left.m13*right.m4 + left.m14*right.m8 + left.m15*right.m12
  m13 := left.m12*right.m1 + left.m13*right.m5 + left.m14*right.m9 + left.m15*right.m13
  m14 := left.m12*right.m2 + left.m13*right.m6 + left.m14*right.m10 + left.m15*right.m14
  m15 := left.m12*right.m3 + left.m13*right.m7 + left.m14*right.m11 + left.m15*right.m15

/-- Modelled from the spec: `MatrixIdentity` of the wrapped library (not under
`src/`), which `Mat4::Identity()` forwards to: "the multiplicative identity
matrix (1s on the main diagonal, 0 elsewhere)". -/
def Mat4.Identity [Zero R] [One R] : Mat4 R where
  m0 := 1
  m4 := 0
  m8 := 0
  m12 := 0
  m1 := 0
  m5 := 1
  m9 := 0
  m13 := 0
  m2 := 0
  m6 := 0
  m10 := 1
  m14 := 0
  m3 := 0
  m7 := 0
  m11 := 0
  m15 := 1

/-- Modelled from the spec: `MatrixTranslate` of the wrapped library (not under
`src/`), which `Mat4::Translate( x, y, z )` forwards to: "identity matrix with
the translation components placed in column 3 (m12=x, m13=y, m14=z)". -/
def Mat4.Translate [Zero R] [One R] (x y z : R) : Mat4 R :=
  { (Mat4.Identity : Mat4 R) with m12 := x, m13 := y, m14 := z }

/-- Modelled from the spec: `MatrixScale` of the wrapped library (not under
`src/`), which `Mat4::Scale( x, y, z )` forwards to: "diagonal matrix with
(x,y,z,1) on the diagonal". -/
def Mat4.Scale [Zero R] [One R] (x y z : R) : Mat4 R :=
  { (Mat4.Identity : Mat4 R) with m0 := x, m5 := y, m10 := z }

/-- The determinant of a 3×3 array given by its rows, expanded along the first
row. -/
def det3 [Add R] [Sub R] [Mul R] (a b c d e f g h i : R) : R :=
  a * (e * i - f * h) - b * (d * i - f * g) + c * (d * h - e * g)

/-- Modelled from the spec: `MatrixDeterminant` of the wrapped library (not
under `src/`), which `Mat4::Determinant()` forwards to: "closed-form cofactor
expansion of the 4×4 determinant", here along the first row
`m0, m4, m8, m12`. -/
def Mat4.Determinant [Add R] [Sub R] [Mul R] (M : Mat4 R) : R :=
  M.m0 * det3 M.m5 M.m9 M.m13 M.m6 M.m10 M.m14 M.m7 M.m11 M.m15
    - M.m4 * det3 M.m1 M.m9 M.m13 M.m2 M.m10 M.m14 M.m3 M.m11 M.m15
    + M.m8 * det3 M.m1 M.m5 M.m13 M.m2 M.m6 M.m14 M.m3 M.m7 M.m15
    - M.m12 * det3 M.m1 M.m5 M.m9 M.m2 M.m6 M.m10 M.m3 M.m7 M.m11

/-- Modelled from the spec: `MatrixInvert` of the wrapped library (not under
`src/`), which `Mat4::Invert()` forwards to: "closed-form adjugate/cofactor-based
inversion divided by the determinant". Cell `m(4·c+r)` is the cofactor of the
entry in row `c`, column `r` (the adjugate), times `1 / Determinant`. -/
def Mat4.Invert [Field R] (M : Mat4 R) : Mat4 R :=
  let invDet : R := 1 / M.Determinant
  { m0 := det3 M.m5 M.m9 M.m13 M.m6 M.m10 M.m14 M.m7 M.m11 M.m15 * invDet
    m1 := -(det3 M.m1 M.m9 M.m13 M.m2 M.m10 M.m14 M.m3 M.m11 M.m15) * invDet
    m2 := det3 M.m1 M.m5 M.m13 M.m2 M.m6 M.m14 M.m3 M.m7 M.m15 * invDet
    m3 := -(det3 M.m1 M.m5 M.m9 M.m2 M.m6 M.m10 M.m3 M.m7 M.m11) * invDet
    m4 := -(det3 M.m4 M.m8 M.m12 M.m6 M.m10 M.m14 M.m7 M.m11 M.m15) * invDet
    m5 := det3 M.m0 M.m8 M.m12 M.m2 M.m10 M.m14 M.m3 M.m11 M.m15 * invDet
    m6 := -(det3 M.m0 M.m4 M.m12 M.m2 M.m6 M.m14 M.m3 M.m7 M.m15) * invDet
    m7 := det3 M.m0 M.m4 M.m8 M.m2 M.m6 M.m10 M.m3 M.m7 M.m11 * invDet
    m8 := det3 M.m4 M.m8 M.m12 M.m5 M.m9 M.m13 M.m7 M.m11 M.m15 * invDet
    m9 := -(det3 M.m0 M.m8 M.m12 M.m1 M.m9 M.m13 M.m3 M.m11 M.m15) * invDet
    m10 := det3 M.m0 M.m4 M.m12 M.m1 M.m5 M.m13 M.m3 M.m7 M.m15 * invDet
    m11 := -(det3 M.m0 M.m4 M.m8 M.m1 M.m5 M.m9 M.m3 M.m7 M.m11) * invDet
    m12 := -(det3 M.m4 M.m8 M.m12 M.m5 M.m9 M.m13 M.m6 M.m10 M.m14) * invDet
    m13 := det3 M.m0 M.m8 M.m12 M.m1 M.m9 M.m13 M.m2 M.m10 M.m14 * invDet
    m14 := -(det3 M.m0 M.m4 M.m12 M.m1 M.m5 M.m13 M.m2 M.m6 M.m14) * invDet
    m15 := det3 M.m0 M.m4 M.m8 M.m1 M.m5 M.m9 M.m2 M.m6 M.m10 * invDet }

/-- The default constructor `Mat4() {}`: no member is named by the constructor,
so every named cell takes its default member initializer `= 0.0f`. -/
def Mat4.default [Zero R] : Mat4 R where
  m0 := 0
  m4 := 0
  m8 := 0
  m12 := 0
  m1 := 0
  m5 := 0
  m9 := 0
  m13 := 0
  m2 := 0
  m6 := 0
  m10 := 0
  m14 := 0
  m3 := 0
  m7 := 0
  m11 := 0
  m15 := 0

/-- The constructor `Mat4( float m0, float m4, float m8, float m12, float m1,
... float m15 )` with its member initializer list `m0(m0), m4(m4), m8(m8),
m12(m12), m1(m1), ...`: the parameters are listed in the order of the source,
and each initializes the named cell of its own name. -/
def Mat4.construct (m0 m4 m8 m12 m1 m5 m9 m13 m2 m6 m10 m14 m3 m7 m11 m15 : R) : Mat4 R where
  m0 := m0
  m4 := m4
  m8 := m8
  m12 := m12
  m1 := m1
  m5 := m5
  m9 := m9
  m13 := m13
  m2 := m2
  m6 := m6
  m10 := m10
  m14 := m14
  m3 := m3
  m7 := m7
  m11 := m11
  m15 := m15

/-- The constructor call `Mat4( a0, a1, ..., a15 )`: the `k`-th argument is
`a k`. -/
def Mat4.constructArgs (a : Fin 16 → R) : Mat4 R :=
  Mat4.construct (a 0) (a 1) (a 2) (a 3) (a 4) (a 5) (a 6) (a 7)
    (a 8) (a 9) (a 10) (a 11) (a 12) (a 13) (a 14) (a 15)

/-- The 4×4 matrix of entries `m[row][col]` of a `Mat4`. -/
def Mat4.toMatrix (M : Mat4 R) : Matrix (Fin 4) (Fin 4) R :=
  Matrix.of fun row col => M.entry row col

/-- A test matrix: the named cell `m_k` holds the number `k`. -/
def Mat4.numbered : Mat4 ℚ where
  m0 := 0
  m4 := 4
  m8 := 8
  m12 := 12
  m1 := 1
  m5 := 5
  m9 := 9
  m13 := 13
  m2 := 2
  m6 := 6
  m10 := 10
  m14 := 14
  m3 := 3
  m7 := 7
  m11 := 11
  m15 := 15

end Mat4Defs

/-! ## Swizzler -/

/-- Source: `template<typename V, typename RLV, int...Indexes> class Swizzler`: one
instantiation is determined by its index pack. Its only data member is
`float v[Count]`, which overlays the first `Count` floats of the union it is a
member of; the aggregates `V` it produces and consumes are given by their
`array` (a list of `Count` scalars, the arguments of `V`'s constructor). -/
structure Swizzler where
  Indexes : List Nat
deriving DecidableEq, Repr

section SwizzlerDefs

variable {α : Type}

/-- Source: `static const int Count = sizeof...(Indexes);` -/
def Swizzler.Count (s : Swizzler) : Nat :=
  s.Indexes.length

/-- A read of `v[j]`, where `float v[Count]` overlays the storage `mem` of the
enclosing union. -/
def Swizzler.load (s : Swizzler) (mem : List α) (j : Nat) : Option α :=
  if j < s.Count then mem[j]? else none

/-- The store `v[j] = c` into the storage `mem` of the enclosing union. -/
def Swizzler.store (s : Swizzler) (mem : List α) (j : Nat) (c : α) : Option (List α) :=
  if j < s.Count ∧ j < mem.length then some (mem.set j c) else none

/-- The pack expansion `v[Indexes]...`: the loads for an index list, in order. -/
def Swizzler.gather (s : Swizzler) (mem : List α) : List Nat → Option (List α)
  | [] => some []
  | j :: js =>
    match s.load mem j, Swizzler.gather s mem js with
    | some c, some cs => some (c :: cs)
    | _, _ => none

/-- Source: `operator V() const { return V( v[Indexes]... ); }` (and `operator RLV()`):
the components of the aggregate returned. A `const` member: it has no store, so
it is a function of the storage alone. -/
def Swizzler.read (s : Swizzler) (mem : List α) : Option (List α) :=
  s.gather mem s.Indexes

/-- What the parameter `const V& rhs` of `operator=` refers to. The reference
is either to an aggregate of its own (a temporary such as `{9,8}`, the copy made
by reading another swizzle, or another object), or into the storage that the
swizzle writes: the enclosing aggregate itself (`v.zyx = v`) or the `V&`
returned by an earlier swizzle assignment on it (`v.yx = (v.xy = r)`), both of
which are the `V` at the start of that storage. -/
inductive Rhs (α : Type) where
  | separate (vals : List α) : Rhs α
  | aliased : Rhs α
deriving DecidableEq, Repr

/-- The read `rhs[i]` through the reference, when the storage written holds
`mem`: `V::operator[]( size_t ) const` on an aggregate of its own, and the
current `i`-th float of the storage when `rhs` is the `V` (of `count` floats) at
its start. -/
def Rhs.get (rhs : Rhs α) (count : Nat) (mem : List α) (i : Nat) : Option α :=
  match rhs with
  | Rhs.separate vals => vals[i]?
  | Rhs.aliased => if i < count then mem[i]? else none

/-- The loop `for( int i = 0; i < Count; ++i ) { v[indexes[i]] = rhs[i]; }` of
`operator=`: the `n` iterations starting at `i`. Each iteration reads `rhs[i]`
through the reference, after the stores of the iterations before it. -/
def Swizzler.assignLoop (s : Swizzler) (rhs : Rhs α) : Nat → Nat → List α → Option (List α)
  | 0, _, mem => some mem
  | n + 1, i, mem =>
    match s.Indexes[i]?, rhs.get s.Count mem i with
    | some j, some c =>
      match s.store mem j c with
      | some mem1 => Swizzler.assignLoop s rhs n (i + 1) mem1
      | none => none
    | _, _ => none

/-- Source: `V& operator=( const V& rhs )`: the storage of the enclosing union after the
assignment. -/
def Swizzler.assign (s : Swizzler) (mem : List α) (rhs : Rhs α) : Option (List α) :=
  s.assignLoop rhs s.Count 0 mem

/-- Source: `return *(V*)this;` of `operator=`: the value of the assignment expression,
the first `Count` floats of the updated storage seen as a `V`. -/
def Swizzler.assignResult (s : Swizzler) (mem : List α) (rhs : Rhs α) : Option (List α) :=
  (s.assign mem rhs).map (List.take s.Count)

end SwizzlerDefs

/-! ## Vec2, Vec3, Vec4 -/

/-- Source: `struct Vec2`: the anonymous `struct { float x, y; }` of the union. -/
@[ext]
structure Vec2 (α : Type) where
  x : α
  y : α
deriving DecidableEq, Repr

/-- Source: `struct Vec3`: the anonymous `struct { float x, y, z; }` of the union. -/
@[ext]
structure Vec3 (α : Type) where
  x : α
  y : α
  z : α
deriving DecidableEq, Repr

/-- Source: `struct Vec4`: the anonymous `struct { float x, y, z, w; }` of the union. -/
@[ext]
structure Vec4 (α : Type) where
  x : α
  y : α
  z : α
  w : α
deriving DecidableEq, Repr

section VecDefs

variable {α : Type}

/-- Source: `float array[2]` of the union of `Vec2`. -/
def Vec2.array (v : Vec2 α) : List α :=
  [v.x, v.y]

/-- The `Vec2` whose `array` member holds the given floats; on two scalars it is
the constructor `Vec2( float x, float y )`. -/
def Vec2.ofArray : List α → Option (Vec2 α)
  | [a, b] => some ⟨a, b⟩
  | _ => none

/-- The named field at position `i` of a `Vec2`: `x`, `y`. -/
def Vec2.field (v : Vec2 α) : Nat → Option α
  | 0 => some v.x
  | 1 => some v.y
  | _ => none

/-- Source: `float operator[]( size_t idx ) const { return array[idx]; }` -/
def Vec2.opIndex (v : Vec2 α) (idx : Nat) : Option α :=
  v.array[idx]?

/-- Source: `float& operator[]( size_t idx ) { return array[idx]; }` followed by a store
of `c` through the returned reference. -/
def Vec2.opIndexSet (v : Vec2 α) (idx : Nat) (c : α) : Option (Vec2 α) :=
  if idx < v.array.length then Vec2.ofArray (v.array.set idx c) else none

/-- Source: `Swizzler<Vec2, Vector2, 0, 0> xx;` -/
def Vec2.xx : Swizzler := ⟨[0, 0]⟩
/-- Source: `Swizzler<Vec2, Vector2, 1, 1> yy;` -/
def Vec2.yy : Swizzler := ⟨[1, 1]⟩
/-- Source: `Swizzler<Vec2, Vector2, 0, 1> xy;` -/
def Vec2.xy : Swizzler := ⟨[0, 1]⟩
/-- Source: `Swizzler<Vec2, Vector2, 1, 0> yx;` -/
def Vec2.yx : Swizzler := ⟨[1, 0]⟩

/-- The swizzle members of the union of `Vec2`. -/
def Vec2.swizzles : List Swizzler :=
  [Vec2.xx, Vec2.yy, Vec2.xy, Vec2.yx]

/-- The read `value = v.sw` of a swizzle member of a `Vec2`. -/
def Vec2.swizzleRead (v : Vec2 α) (sw : Swizzler) : Option (List α) :=
  sw.read v.array

/-- The assignment `v.sw = rhs` through a swizzle member of a `Vec2`: the
aggregate afterwards. -/
def Vec2.swizzleAssign (v : Vec2 α) (sw : Swizzler) (rhs : Rhs α) : Option (Vec2 α) :=
  (sw.assign v.array rhs).bind Vec2.ofArray

/-- Source: `float array[3]` of the union of `Vec3`. -/
def Vec3.array (v : Vec3 α) : List α :=
  [v.x, v.y, v.z]

/-- The `Vec3` whose `array` member holds the given floats; on three scalars it
is the constructor `Vec3( float x, float y, float z )`. -/
def Vec3.ofArray : List α → Option (Vec3 α)
  | [a, b, c] => some ⟨a, b, c⟩
  | _ => none

/-- The named field at position `i` of a `Vec3`: `x`, `y`, `z`. -/
def Vec3.field (v : Vec3 α) : Nat → Option α
  | 0 => some v.x
  | 1 => some v.y
  | 2 => some v.z
  | _ => none

/-- Source: `float operator[]( size_t idx ) const { return array[idx]; }` -/
def Vec3.opIndex (v : Vec3 α) (idx : Nat) : Option α :=
  v.array[idx]?

/-- Source: `float& operator[]( size_t idx ) { return array[idx]; }` followed by a store
of `c` through the returned reference. -/
def Vec3.opIndexSet (v : Vec3 α) (idx : Nat) (c : α) : Option (Vec3 α) :=
  if idx < v.array.length then Vec3.ofArray (v.array.set idx c) else none

/-- Source: `Swizzler<Vec2, Vector2, 0, 0> xx;` -/
def Vec3.xx : Swizzler := ⟨[0, 0]⟩
/-- Source: `Swizzler<Vec2, Vector2, 1, 1> yy;` -/
def Vec3.yy : Swizzler := ⟨[1, 1]⟩
/-- Source: `Swizzler<Vec2, Vector2, 0, 1> xy;` -/
def Vec3.xy : Swizzler := ⟨[0, 1]⟩
/-- Source: `Swizzler<Vec2, Vector2, 1, 0> yx;` -/
def Vec3.yx : Swizzler := ⟨[1, 0]⟩
/-- Source: `Swizzler<Vec3, Vector3, 0, 1, 2> xyz;` -/
def Vec3.xyz : Swizzler := ⟨[0, 1, 2]⟩
/-- Source: `Swizzler<Vec3, Vector3, 0, 2, 1> xzy;` -/
def Vec3.xzy : Swizzler := ⟨[0, 2, 1]⟩
/-- Source: `Swizzler<Vec3, Vector3, 1, 2, 0> yzx;` -/
def Vec3.yzx : Swizzler := ⟨[1, 2, 0]⟩
/-- Source: `Swizzler<Vec3, Vector3, 1, 0, 2> yxz;` -/
def Vec3.yxz : Swizzler := ⟨[1, 0, 2]⟩
/-- Source: `Swizzler<Vec3, Vector3, 2, 0, 1> zxy;` -/
def Vec3.zxy : Swizzler := ⟨[2, 0, 1]⟩
/-- Source: `Swizzler<Vec3, Vector3, 2, 1, 0> zyx;` -/
def Vec3.zyx : Swizzler := ⟨[2, 1, 0]⟩
/-- Source: `Swizzler<Vec3, Vector3, 0, 0, 0> xxx;` -/
def Vec3.xxx : Swizzler := ⟨[0, 0, 0]⟩
/-- Source: `Swizzler<Vec3, Vector3, 1, 0, 0> yxx;` -/
def Vec3.yxx : Swizzler := ⟨[1, 0, 0]⟩
/-- Source: `Swizzler<Vec3, Vector3, 0, 1, 0> xyx;` -/
def Vec3.xyx : Swizzler := ⟨[0, 1, 0]⟩
/-- Source: `Swizzler<Vec3, Vector3, 0, 0, 1> xxy;` -/
def Vec3.xxy : Swizzler := ⟨[0, 0, 1]⟩
/-- Source: `Swizzler<Vec3, Vector3, 2, 0, 0> zxx;` -/
def Vec3.zxx : Swizzler := ⟨[2, 0, 0]⟩
/-- Source: `Swizzler<Vec3, Vector3, 0, 2, 0> xzx;` -/
def Vec3.xzx : Swizzler := ⟨[0, 2, 0]⟩
/-- Source: `Swizzler<Vec3, Vector3, 0, 0, 2> xxz;` -/
def Vec3.xxz : Swizzler := ⟨[0, 0, 2]⟩
/-- Source: `Swizzler<Vec3, Vector3, 1, 1, 1> yyy;` -/
def Vec3.yyy : Swizzler := ⟨[1, 1, 1]⟩
/-- Source: `Swizzler<Vec3, Vector3, 0, 1, 1> xyy;` -/
def Vec3.xyy : Swizzler := ⟨[0, 1, 1]⟩
/-- Source: `Swizzler<Vec3, Vector3, 1, 0, 1> yxy;` -/
def Vec3.yxy : Swizzler := ⟨[1, 0, 1]⟩
/-- Source: `Swizzler<Vec3, Vector3, 1, 1, 0> yyx;` -/
def Vec3.yyx : Swizzler := ⟨[1, 1, 0]⟩
/-- Source: `Swizzler<Vec3, Vector3, 2, 1, 1> zyy;` -/
def Vec3.zyy : Swizzler := ⟨[2, 1, 1]⟩
/-- Source: `Swizzler<Vec3, Vector3, 1, 2, 1> yzy;` -/
def Vec3.yzy : Swizzler := ⟨[1, 2, 1]⟩
/-- Source: `Swizzler<Vec3, Vector3, 1, 1, 2> yyz;` -/
def Vec3.yyz : Swizzler := ⟨[1, 1, 2]⟩
/-- Source: `Swizzler<Vec3, Vector3, 2, 2, 2> zzz;` -/
def Vec3.zzz : Swizzler := ⟨[2, 2, 2]⟩
/-- Source: `Swizzler<Vec3, Vector3, 0, 2, 2> xzz;` -/
def Vec3.xzz : Swizzler := ⟨[0, 2, 2]⟩
/-- Source: `Swizzler<Vec3, Vector3, 2, 0, 2> zxz;` -/
def Vec3.zxz : Swizzler := ⟨[2, 0, 2]⟩
/-- Source: `Swizzler<Vec3, Vector3, 2, 2, 0> zzx;` -/
def Vec3.zzx : Swizzler := ⟨[2, 2, 0]⟩
/-- Source: `Swizzler<Vec3, Vector3, 1, 2, 2> yzz;` -/
def Vec3.yzz : Swizzler := ⟨[1, 2, 2]⟩
/-- Source: `Swizzler<Vec3, Vector3, 2, 1, 2> zyz;` -/
def Vec3.zyz : Swizzler := ⟨[2, 1, 2]⟩
/-- Source: `Swizzler<Vec3, Vector3, 2, 2, 1> zzy;` -/
def Vec3.zzy : Swizzler := ⟨[2, 2, 1]⟩

/-- The swizzle members of the union of `Vec3`, in declaration order. -/
def Vec3.swizzles : List Swizzler :=
  [Vec3.xx, Vec3.yy, Vec3.xy, Vec3.yx,
   Vec3.xyz, Vec3.xzy, Vec3.yzx, Vec3.yxz, Vec3.zxy, Vec3.zyx,
   Vec3.xxx, Vec3.yxx, Vec3.xyx, Vec3.xxy, Vec3.zxx, Vec3.xzx, Vec3.xxz,
   Vec3.yyy, Vec3.xyy, Vec3.yxy, Vec3.yyx, Vec3.zyy, Vec3.yzy, Vec3.yyz,
   Vec3.zzz, Vec3.xzz, Vec3.zxz, Vec3.zzx, Vec3.yzz, Vec3.zyz, Vec3.zzy]

/-- The read `value = v.sw` of a swizzle member of a `Vec3`. -/
def Vec3.swizzleRead (v : Vec3 α) (sw : Swizzler) : Option (List α) :=
  sw.read v.array

/-- The assignment `v.sw = rhs` through a swizzle member of a `Vec3`: the
aggregate afterwards. -/
def Vec3.swizzleAssign (v : Vec3 α) (sw : Swizzler) (rhs : Rhs α) : Option (Vec3 α) :=
  (sw.assign v.array rhs).bind Vec3.ofArray

/-- Source: `float array[4]` of the union of `Vec4`. -/
def Vec4.array (v : Vec4 α) : List α :=
  [v.x, v.y, v.z, v.w]

/-- The `Vec4` whose `array` member holds the given floats. -/
def Vec4.ofArray : List α → Option (Vec4 α)
  | [a, b, c, d] => some ⟨a, b, c, d⟩
  | _ => none

/-- The named field at position `i` of a `Vec4`: `x`, `y`, `z`, `w`. -/
def Vec4.field (v : Vec4 α) : Nat → Option α
  | 0 => some v.x
  | 1 => some v.y
  | 2 => some v.z
  | 3 => some v.w
  | _ => none

/-- Source: `float operator[]( size_t idx ) const { return array[idx]; }` -/
def Vec4.opIndex (v : Vec4 α) (idx : Nat) : Option α :=
  v.array[idx]?

/-- Source: `float& operator[]( size_t idx ) { return array[idx]; }` followed by a store
of `c` through the returned reference. -/
def Vec4.opIndexSet (v : Vec4 α) (idx : Nat) (c : α) : Option (Vec4 α) :=
  if idx < v.array.length then Vec4.ofArray (v.array.set idx c) else none

end VecDefs

/-! ## The swizzle loop -/

section SwizzlerLemmas

variable {α : Type}

theorem Swizzler.gather_spec (s : Swizzler) (mem : List α) (hlen : s.Count ≤ mem.length) :
    ∀ js : List Nat, (∀ j ∈ js, j < s.Count) →
      ∃ out, s.gather mem js = some out ∧ out.length = js.length ∧
        ∀ i j : Nat, js[i]? = some j → out[i]? = mem[j]? := by
  intro js
  induction js with
  | nil =>
    intro _
    exact ⟨[], rfl, rfl, by simp⟩
  | cons j0 js ih =>
    intro hjs
    have hj0 : j0 < s.Count := hjs j0 (List.mem_cons_self _ _)
    obtain ⟨out, hout, hl, hget⟩ := ih (fun j hj => hjs j (List.mem_cons_of_mem _ hj))
    have hlt : j0 < mem.length := lt_of_lt_of_le hj0 hlen
    refine ⟨mem[j0] :: out, ?_, by simp [hl], ?_⟩
    · simp [Swizzler.gather, Swizzler.load, hj0, hout, List.getElem?_eq_getElem hlt]
    · intro i j hij
      cases i with
      | zero =>
        simp at hij
        subst hij
        simp [List.getElem?_eq_getElem hlt]
      | succ i =>
        simp at hij
        simpa using hget i j hij

theorem Swizzler.assignLoop_spec (s : Swizzler) (rhs : List α)
    (hrhs : rhs.length = s.Count) (hidx : ∀ j ∈ s.Indexes, j < s.Count) :
    ∀ (n i : Nat) (mem : List α), i + n = s.Count → s.Count ≤ mem.length →
      ∃ out, s.assignLoop (Rhs.separate rhs) n i mem = some out ∧ out.length = mem.length ∧
        (∀ j : Nat, (∀ k : Nat, i ≤ k → s.Indexes[k]? ≠ some j) → out[j]? = mem[j]?) ∧
        (∀ k j : Nat, i ≤ k → s.Indexes[k]? = some j →
          (∀ k2 : Nat, k < k2 → s.Indexes[k2]? ≠ some j) → out[j]? = rhs[k]?) := by
  intro n
  induction n with
  | zero =>
    intro i mem hi _
    refine ⟨mem, rfl, rfl, fun _ _ => rfl, ?_⟩
    intro k j hk hkj _
    have hklt : k < s.Indexes.length := by
      by_contra hge
      rw [List.getElem?_eq_none (by omega)] at hkj
      exact absurd hkj (by simp)
    simp only [Swizzler.Count] at hi
    omega
  | succ n ih =>
    intro i mem hi hlen
    have hilt : i < s.Indexes.length := by
      simp only [Swizzler.Count] at hi
      omega
    have hirhs : i < rhs.length := by
      rw [hrhs]
      exact hilt
    have hj0 : s.Indexes[i] < s.Count := hidx _ (List.getElem_mem _)
    have hj0len : s.Indexes[i] < mem.length := lt_of_lt_of_le hj0 hlen
    obtain ⟨out, hout, hl, hkeep, hput⟩ :=
      ih (i + 1) (mem.set s.Indexes[i] rhs[i]) (by omega) (by simpa using hlen)
    refine ⟨out, ?_, by simpa using hl, ?_, ?_⟩
    · simp [Swizzler.assignLoop, Rhs.get, Swizzler.store, List.getElem?_eq_getElem hilt,
        List.getElem?_eq_getElem hirhs, hj0, hj0len, hout]
    · intro j hj
      have hne : s.Indexes[i] ≠ j := by
        intro h
        exact hj i (le_refl i) (by simp [List.getElem?_eq_getElem hilt, h])
      rw [hkeep j (fun k hk => hj k (by omega))]
      exact List.getElem?_set_ne hne
    · intro k j hk hkj hlast
      rcases Nat.eq_or_lt_of_le hk with heq | hlt
      · subst heq
        have hji : s.Indexes[i] = j := by
          simpa [List.getElem?_eq_getElem hilt] using hkj
        rw [hkeep j (fun k2 hk2 => hlast k2 (by omega)), ← hji]
        rw [List.getElem?_set_self hj0len, List.getElem?_eq_getElem hirhs]
      · exact hput k j (by omega) hkj hlast

/-- The assignment loop with the right-hand side in the storage written:
it returns a storage of the same length, and every component outside the index
list is kept. -/
theorem Swizzler.assignLoop_aliased (s : Swizzler) (hidx : ∀ j ∈ s.Indexes, j < s.Count) :
    ∀ (n i : Nat) (mem : List α), i + n = s.Count → s.Count ≤ mem.length →
      ∃ out, s.assignLoop Rhs.aliased n i mem = some out ∧ out.length = mem.length ∧
        (∀ j : Nat, (∀ k : Nat, i ≤ k → s.Indexes[k]? ≠ some j) → out[j]? = mem[j]?) := by
  intro n
  induction n with
  | zero =>
    intro i mem _ _
    exact ⟨mem, rfl, rfl, fun _ _ => rfl⟩
  | succ n ih =>
    intro i mem hi hlen
    have hilt : i < s.Indexes.length := by
      simp only [Swizzler.Count] at hi
      omega
    have hic : i < s.Count := hilt
    have himem : i < mem.length := lt_of_lt_of_le hic hlen
    have hj0 : s.Indexes[i] < s.Count := hidx _ (List.getElem_mem _)
    have hj0len : s.Indexes[i] < mem.length := lt_of_lt_of_le hj0 hlen
    obtain ⟨out, hout, hl, hkeep⟩ :=
      ih (i + 1) (mem.set s.Indexes[i] mem[i]) (by omega) (by simpa using hlen)
    refine ⟨out, ?_, by simpa using hl, ?_⟩
    · simp [Swizzler.assignLoop, Rhs.get, Swizzler.store, List.getElem?_eq_getElem hilt,
        List.getElem?_eq_getElem himem, hic, hj0, hj0len, hout]
    · intro j hj
      have hne : s.Indexes[i] ≠ j := by
        intro h
        exact hj i (le_refl i) (by simp [List.getElem?_eq_getElem hilt, h])
      rw [hkeep j (fun k hk => hj k (by omega))]
      exact List.getElem?_set_ne hne

end SwizzlerLemmas

/-! ## Matrix multiplication -/

section Mat4Theorems

variable {R : Type}

theorem Mat4.toMatrix_eq (M : Mat4 R) :
    M.toMatrix =
      !![M.m0, M.m4, M.m8, M.m12; M.m1, M.m5, M.m9, M.m13;
         M.m2, M.m6, M.m10, M.m14; M.m3, M.m7, M.m11, M.m15] := by
  ext r c
  fin_cases r <;> fin_cases c <;> rfl

/-- The modelled `Determinant` is the determinant of the matrix of entries. -/
theorem Mat4.Determinant_eq_det [CommRing R] (M : Mat4 R) :
    M.Determinant = M.toMatrix.det := by
  have e1 : (Fin.castSucc (2 : Fin 3) : Fin 4) = 2 := rfl
  have e2 : Fin.succ (2 : Fin 3) = (3 : Fin 4) := rfl
  have e3 : (1 : Fin 4) < 3 := by decide
  rw [Mat4.toMatrix_eq, Matrix.det_succ_row_zero]
  simp [Fin.sum_univ_succ, Matrix.det_fin_three, Fin.succAbove, Mat4.Determinant, det3, e1, e2, e3]
  ring

theorem Mat4.Multiply_entry_sum [CommRing R] (left right : Mat4 R) (row col : Fin 4) :
    (left.Multiply right).entry row col = ∑ k : Fin 4, right.entry row k * left.entry k col := by
  fin_cases row <;> fin_cases col <;>
    simp [Fin.sum_univ_four, Mat4.entry, Mat4.cell, Mat4.Multiply] <;> ring

theorem operatorMul_entry_sum [CommRing R] (left right : Mat4 R) (row col : Fin 4) :
    (operatorMul left right).entry row col = ∑ k : Fin 4, right.entry row k * left.entry k col := by
  fin_cases row <;> fin_cases col <;>
    simp [Fin.sum_univ_four, Mat4.entry, Mat4.cell, operatorMul] <;> ring

theorem Mat4.Multiply_toMatrix [CommRing R] (left right : Mat4 R) :
    (left.Multiply right).toMatrix = right.toMatrix * left.toMatrix := by
  ext row col
  simp only [Mat4.toMatrix, Matrix.of_apply, Matrix.mul_apply]
  exact Mat4.Multiply_entry_sum left right row col

theorem operatorMul_toMatrix [CommRing R] (left right : Mat4 R) :
    (operatorMul left right).toMatrix = right.toMatrix * left.toMatrix := by
  ext row col
  simp only [Mat4.toMatrix, Matrix.of_apply, Matrix.mul_apply]
  exact operatorMul_entry_sum left right row col

/-- C1, as stated, fails: with `left = Translate(1,2,3)` and
`right = Scale(2,3,4)`, the entry in row 0, column 3 (the named cell `m12`) of
`left.Multiply(right)` and of `operator*(left, right)` is 2, while
`Σ_k left[0][k] · right[k][3]` is 1. -/
theorem C1_counterexample :
    ((Mat4.Translate 1 2 3 : Mat4 ℚ).Multiply (Mat4.Scale 2 3 4)).entry 0 3 = 2 ∧
    (operatorMul (Mat4.Translate 1 2 3 : Mat4 ℚ) (Mat4.Scale 2 3 4)).entry 0 3 = 2 ∧
    (∑ k : Fin 4, (Mat4.Translate 1 2 3 : Mat4 ℚ).entry 0 k * (Mat4.Scale 2 3 4 : Mat4 ℚ).entry k 3)
      = 1 ∧
    ((Mat4.Translate 1 2 3 : Mat4 ℚ).Multiply (Mat4.Scale 2 3 4)).entry 0 3 ≠
      ∑ k : Fin 4, (Mat4.Translate 1 2 3 : Mat4 ℚ).entry 0 k * (Mat4.Scale 2 3 4 : Mat4 ℚ).entry k 3 := by
  refine ⟨?_, ?_, ?_, ?_⟩ <;>
    norm_num [Fin.sum_univ_four, Mat4.entry, Mat4.cell, Mat4.Multiply, operatorMul,
      Mat4.Translate, Mat4.Scale, Mat4.Identity]

/-- C1, amended: for all matrices `left` and `right`, `left.Multiply(right)` and
`operator*(left, right)` return the matrix product `right·left` in the
column-major convention in which `m[row][col]` is the named cell `m(4·col+row)`:
for every row and col in 0..3,
`result[row][col] = Σ_k right[row][k] · left[k][col]`; hence the product applies
its left operand first to a column vector `p`. -/
theorem C1_multiply_is_right_times_left [CommRing R] (left right : Mat4 R) (row col : Fin 4)
    (p : Fin 4 → R) :
    (left.Multiply right).entry row col = ∑ k : Fin 4, right.entry row k * left.entry k col ∧
    (operatorMul left right).entry row col = ∑ k : Fin 4, right.entry row k * left.entry k col ∧
    (left.Multiply right).toMatrix = right.toMatrix * left.toMatrix ∧
    (operatorMul left right).toMatrix = right.toMatrix * left.toMatrix ∧
    (left.Multiply right).toMatrix.mulVec p = right.toMatrix.mulVec (left.toMatrix.mulVec p) ∧
    (operatorMul left right).toMatrix.mulVec p
      = right.toMatrix.mulVec (left.toMatrix.mulVec p) := by
  refine ⟨Mat4.Multiply_entry_sum left right row col, operatorMul_entry_sum left right row col,
    Mat4.Multiply_toMatrix left right, operatorMul_toMatrix left right, ?_, ?_⟩
  · rw [Mat4.Multiply_toMatrix, Matrix.mulVec_mulVec]
  · rw [operatorMul_toMatrix, Matrix.mulVec_mulVec]

/-- C5, as stated, fails: in the matrix whose named cell `m_k` holds `k`,
indexed element 1 (`operator[](1)`, `array[1]`) is 4, the named cell `m4`, while
the named cell `m1` is 1. -/
theorem C5_counterexample :
    Mat4.numbered.opIndex 1 = some 4 ∧
    Mat4.numbered.array[1]? = some Mat4.numbered.m4 ∧
    Mat4.numbered.cell 1 = 1 ∧
    Mat4.numbered.opIndex 1 ≠ some (Mat4.numbered.cell 1) := by
  refine ⟨rfl, rfl, rfl, ?_⟩
  norm_num [Mat4.opIndex, Mat4.array, Mat4.cell, Mat4.numbered]

/-- C5, amended: in `Mat4` the indexed view and the named cells agree in the
declaration order of the cells (`m0, m4, m8, m12, m1, ...`): for every `i` in
0..15, indexed element `i` (`operator[](i)`, `array[i]`), read or written, is
the named cell `m(4·(i mod 4) + i div 4)`; so each row of the matrix is stored
contiguously (indexed element `4·row+col` is `m[row][col]`), and row 0 =
`{m0,m4,m8,m12}` occupies indexed elements 0..3. -/
theorem C5_index_is_row_major (M : Mat4 R) (i : Fin 16) (c : R) (row col : Fin 4) :
    M.opIndex i.val = some (M.cell ⟨4 * (i.val % 4) + i.val / 4, by omega⟩) ∧
    M.array[i.val]? = some (M.cell ⟨4 * (i.val % 4) + i.val / 4, by omega⟩) ∧
    (∃ N, M.opIndexSet i.val c = some N ∧
      N.cell ⟨4 * (i.val % 4) + i.val / 4, by omega⟩ = c) ∧
    M.opIndex (4 * row.val + col.val) = some (M.entry row col) ∧
    M.array.take 4 = [M.m0, M.m4, M.m8, M.m12] := by
  refine ⟨?_, ?_, ?_, ?_, rfl⟩
  · fin_cases i <;> rfl
  · fin_cases i <;> rfl
  · fin_cases i <;> exact ⟨_, rfl, rfl⟩
  · fin_cases row <;> fin_cases col <;> rfl

/-- C6: for every matrix `M`, `Multiply` and `operator*` with the identity
matrix on either side return `M` cell for cell; the identity matrix has 1 in
the cells `m0, m5, m10, m15` and 0 in the other twelve. -/
theorem C6_multiply_identity [CommRing R] (M : Mat4 R) :
    M.Multiply Mat4.Identity = M ∧ Mat4.Identity.Multiply M = M ∧
    operatorMul M Mat4.Identity = M ∧ operatorMul Mat4.Identity M = M ∧
    (∀ k : Fin 16, (Mat4.Identity : Mat4 R).cell k
      = if k = 0 ∨ k = 5 ∨ k = 10 ∨ k = 15 then 1 else 0) := by
  refine ⟨?_, ?_, ?_, ?_, ?_⟩
  · ext <;> simp [Mat4.Multiply, Mat4.Identity]
  · ext <;> simp [Mat4.Multiply, Mat4.Identity]
  · ext <;> simp [operatorMul, Mat4.Identity]
  · ext <;> simp [operatorMul, Mat4.Identity]
  · intro k
    fin_cases k <;> simp [Mat4.cell, Mat4.Identity]

/-- C7: matrix multiplication is associative: for all matrices `A`, `B`, `C`,
`(A*B)*C` equals `A*(B*C)` cell for cell, for `Mat4::Multiply` and for the free
`operator*`. -/
theorem C7_multiply_assoc [CommRing R] (A B C : Mat4 R) :
    (A.Multiply B).Multiply C = A.Multiply (B.Multiply C) ∧
    operatorMul (operatorMul A B) C = operatorMul A (operatorMul B C) := by
  constructor
  · ext <;> simp only [Mat4.Multiply] <;> ring
  · ext <;> simp only [operatorMul] <;> ring

/-- C8: matrix multiplication is not commutative: for the translation matrix
`A` with `m12=1, m13=2, m14=3` and the scale matrix `B` with diagonal 2,3,4,1,
`A*B` and `B*A` differ in the cell `m12` (2 against 1), for `operator*` and for
`Mat4::Multiply`. -/
theorem C8_multiply_not_comm :
    (Mat4.Translate 1 2 3 : Mat4 ℚ).m12 = 1 ∧ (Mat4.Translate 1 2 3 : Mat4 ℚ).m13 = 2 ∧
    (Mat4.Translate 1 2 3 : Mat4 ℚ).m14 = 3 ∧
    (Mat4.Scale 2 3 4 : Mat4 ℚ).m0 = 2 ∧ (Mat4.Scale 2 3 4 : Mat4 ℚ).m5 = 3 ∧
    (Mat4.Scale 2 3 4 : Mat4 ℚ).m10 = 4 ∧ (Mat4.Scale 2 3 4 : Mat4 ℚ).m15 = 1 ∧
    (operatorMul (Mat4.Translate 1 2 3 : Mat4 ℚ) (Mat4.Scale 2 3 4)).m12 = 2 ∧
    (operatorMul (Mat4.Scale 2 3 4 : Mat4 ℚ) (Mat4.Translate 1 2 3)).m12 = 1 ∧
    operatorMul (Mat4.Translate 1 2 3 : Mat4 ℚ) (Mat4.Scale 2 3 4)
      ≠ operatorMul (Mat4.Scale 2 3 4) (Mat4.Translate 1 2 3) ∧
    (Mat4.Translate 1 2 3 : Mat4 ℚ).Multiply (Mat4.Scale 2 3 4)
      ≠ (Mat4.Scale 2 3 4 : Mat4 ℚ).Multiply (Mat4.Translate 1 2 3) := by
  refine ⟨rfl, rfl, rfl, rfl, rfl, rfl, rfl, ?_, ?_, ?_, ?_⟩
  · norm_num [operatorMul, Mat4.Translate, Mat4.Scale, Mat4.Identity]
  · norm_num [operatorMul, Mat4.Translate, Mat4.Scale, Mat4.Identity]
  · intro h
    have h12 := congrArg Mat4.m12 h
    norm_num [operatorMul, Mat4.Translate, Mat4.Scale, Mat4.Identity] at h12
  · intro h
    have h12 := congrArg Mat4.m12 h
    norm_num [Mat4.Multiply, Mat4.Translate, Mat4.Scale, Mat4.Identity] at h12

theorem Mat4.Multiply_Invert [Field R] (M : Mat4 R) (hdet : M.Determinant ≠ 0) :
    M.Multiply M.Invert = Mat4.Identity := by
  have hd : M.Determinant * (1 / M.Determinant) = 1 := mul_one_div_cancel hdet
  unfold Mat4.Invert
  generalize 1 / M.Determinant = invDet at hd
  simp only [Mat4.Determinant, det3] at hd
  ext <;> simp only [Mat4.Multiply, Mat4.Identity, det3] <;>
    first
      | linear_combination hd
      | ring

theorem Mat4.Invert_Multiply [Field R] (M : Mat4 R) (hdet : M.Determinant ≠ 0) :
    M.Invert.Multiply M = Mat4.Identity := by
  have hd : M.Determinant * (1 / M.Determinant) = 1 := mul_one_div_cancel hdet
  unfold Mat4.Invert
  generalize 1 / M.Determinant = invDet at hd
  simp only [Mat4.Determinant, det3] at hd
  ext <;> simp only [Mat4.Multiply, Mat4.Identity, det3] <;>
    first
      | linear_combination hd
      | ring

theorem operatorMul_eq_Multiply [Add R] [Mul R] (left right : Mat4 R) :
    operatorMul left right = left.Multiply right :=
  rfl

theorem Mat4.Invert_Translate [Field R] :
    (Mat4.Translate 1 2 3 : Mat4 R).Invert = Mat4.Translate (-1) (-2) (-3) := by
  ext <;> simp [Mat4.Invert, Mat4.Determinant, det3, Mat4.Translate, Mat4.Identity]

/-- C10: for every matrix `M` whose determinant is non-zero,
`M.Multiply(M.Invert())` equals `Identity()` cell for cell (also for
`operator*`, and with the inverse on the left); the inverse of
`Translate(1,2,3)` is `Translate(-1,-2,-3)`. -/
theorem C10_multiply_invert [Field R] (M : Mat4 R) (hdet : M.Determinant ≠ 0) :
    M.Multiply M.Invert = Mat4.Identity ∧
    operatorMul M M.Invert = Mat4.Identity ∧
    M.Invert.Multiply M = Mat4.Identity ∧
    (Mat4.Translate 1 2 3 : Mat4 R).Invert = Mat4.Translate (-1) (-2) (-3) :=
  ⟨Mat4.Multiply_Invert M hdet,
   (operatorMul_eq_Multiply M M.Invert).trans (Mat4.Multiply_Invert M hdet),
   Mat4.Invert_Multiply M hdet, Mat4.Invert_Translate⟩

/-- Witness for C10 at `M = Translate(1,2,3)` over the rationals, whose
determinant is 1. -/
theorem C10_multiply_invert_witness :
    (Mat4.Translate 1 2 3 : Mat4 ℚ).Determinant ≠ 0 ∧
    (Mat4.Translate 1 2 3 : Mat4 ℚ).Multiply (Mat4.Translate 1 2 3 : Mat4 ℚ).Invert
      = Mat4.Identity :=
  ⟨by norm_num [Mat4.Determinant, det3, Mat4.Translate, Mat4.Identity],
   (C10_multiply_invert (Mat4.Translate 1 2 3 : Mat4 ℚ)
      (by norm_num [Mat4.Determinant, det3, Mat4.Translate, Mat4.Identity])).1⟩

end Mat4Theorems

/-! ## Swizzle reads and writes -/

section SwizzleTheorems

variable {α : Type}

theorem Vec2.swizzles_bounds_vec2 :
    ∀ sw ∈ Vec2.swizzles, sw.Count ≤ 2 ∧ ∀ j ∈ sw.Indexes, j < sw.Count := by
  decide

theorem Vec3.swizzles_bounds_vec3 :
    ∀ sw ∈ Vec3.swizzles, sw.Count ≤ 3 ∧ ∀ j ∈ sw.Indexes, j < sw.Count := by
  decide

theorem Vec2.ofArray_of_length_vec2 (l : List α) (h : l.length = 2) :
    ∃ w, Vec2.ofArray l = some w ∧ w.array = l := by
  match l, h with
  | [a, b], _ => exact ⟨⟨a, b⟩, rfl, rfl⟩

theorem Vec3.ofArray_of_length_vec3 (l : List α) (h : l.length = 3) :
    ∃ w, Vec3.ofArray l = some w ∧ w.array = l := by
  match l, h with
  | [a, b, c], _ => exact ⟨⟨a, b, c⟩, rfl, rfl⟩

theorem Vec4.ofArray_of_length_vec4 (l : List α) (h : l.length = 4) :
    ∃ w, Vec4.ofArray l = some w ∧ w.array = l := by
  match l, h with
  | [a, b, c, d], _ => exact ⟨⟨a, b, c, d⟩, rfl, rfl⟩

theorem Vec2.opIndex_eq_field_vec2 (v : Vec2 α) (j : Nat) : v.opIndex j = v.field j := by
  match j with
  | 0 => rfl
  | 1 => rfl
  | _ + 2 => rfl

theorem Vec3.opIndex_eq_field_vec3 (v : Vec3 α) (j : Nat) : v.opIndex j = v.field j := by
  match j with
  | 0 => rfl
  | 1 => rfl
  | 2 => rfl
  | _ + 3 => rfl

theorem Vec4.opIndex_eq_field_vec4 (v : Vec4 α) (j : Nat) : v.opIndex j = v.field j := by
  match j with
  | 0 => rfl
  | 1 => rfl
  | 2 => rfl
  | 3 => rfl
  | _ + 4 => rfl

/-- A swizzle read on a storage that holds at least `Count` floats, with all
indexes below `Count`, returns the gathered components. -/
theorem Swizzler.read_spec (s : Swizzler) (mem : List α)
    (hidx : ∀ j ∈ s.Indexes, j < s.Count) (hlen : s.Count ≤ mem.length) :
    ∃ out, s.read mem = some out ∧ out.length = s.Count ∧
      ∀ i j : Nat, s.Indexes[i]? = some j → ∃ c, mem[j]? = some c ∧ out[i]? = some c := by
  obtain ⟨out, hout, hl, hget⟩ := s.gather_spec mem hlen s.Indexes hidx
  refine ⟨out, hout, hl, ?_⟩
  intro i j hij
  have hj : j < mem.length := lt_of_lt_of_le (hidx j (List.getElem?_mem hij)) hlen
  exact ⟨mem[j], List.getElem?_eq_getElem hj, by rw [hget i j hij, List.getElem?_eq_getElem hj]⟩

/-- A swizzle assignment on a storage that holds at least `Count` floats, with
all indexes below `Count` and a right-hand side of `Count` components: every
component outside the index list is kept, and a component in the list holds the
right-hand side's component of the last position that names it. -/
theorem Swizzler.assign_spec (s : Swizzler) (mem rhs : List α)
    (hrhs : rhs.length = s.Count) (hidx : ∀ j ∈ s.Indexes, j < s.Count)
    (hlen : s.Count ≤ mem.length) :
    ∃ out, s.assign mem (Rhs.separate rhs) = some out ∧ out.length = mem.length ∧
      (∀ j : Nat, j ∉ s.Indexes → out[j]? = mem[j]?) ∧
      (∀ k j : Nat, s.Indexes[k]? = some j →
        (∀ k2 : Nat, k < k2 → s.Indexes[k2]? ≠ some j) →
          ∃ c, rhs[k]? = some c ∧ out[j]? = some c) := by
  obtain ⟨out, hout, hl, hkeep, hput⟩ :=
    s.assignLoop_spec rhs hrhs hidx s.Count 0 mem (by omega) hlen
  refine ⟨out, hout, hl, ?_, ?_⟩
  · intro j hj
    exact hkeep j (fun k _ hk => hj (List.getElem?_mem hk))
  · intro k j hkj hlast
    have hk : k < rhs.length := by
      rw [hrhs]
      by_contra hge
      rw [List.getElem?_eq_none (by simpa [Swizzler.Count] using hge)] at hkj
      exact absurd hkj (by simp)
    exact ⟨rhs[k], List.getElem?_eq_getElem hk,
      by rw [hput k j (Nat.zero_le k) hkj hlast, List.getElem?_eq_getElem hk]⟩

theorem Vec2.swizzleAssign_spec_vec2 (v : Vec2 α) (sw : Swizzler) (hsw : sw ∈ Vec2.swizzles)
    (rhs : List α) (hrhs : rhs.length = sw.Count) :
    ∃ w, v.swizzleAssign sw (Rhs.separate rhs) = some w ∧
      (∀ j : Nat, j ∉ sw.Indexes → w.opIndex j = v.opIndex j) ∧
      (∀ k j : Nat, sw.Indexes[k]? = some j →
        (∀ k2 : Nat, k < k2 → sw.Indexes[k2]? ≠ some j) →
          ∃ c, rhs[k]? = some c ∧ w.opIndex j = some c) := by
  obtain ⟨hcount, hidx⟩ := Vec2.swizzles_bounds_vec2 sw hsw
  obtain ⟨out, hout, hl, hkeep, hput⟩ := sw.assign_spec v.array rhs hrhs hidx hcount
  obtain ⟨w, hw, hwa⟩ := Vec2.ofArray_of_length_vec2 out hl
  refine ⟨w, by simp [Vec2.swizzleAssign, hout, hw], ?_, ?_⟩
  · intro j hj
    simpa [Vec2.opIndex, hwa] using hkeep j hj
  · intro k j hkj hlast
    simpa [Vec2.opIndex, hwa] using hput k j hkj hlast

theorem Vec3.swizzleAssign_spec_vec3 (v : Vec3 α) (sw : Swizzler) (hsw : sw ∈ Vec3.swizzles)
    (rhs : List α) (hrhs : rhs.length = sw.Count) :
    ∃ w, v.swizzleAssign sw (Rhs.separate rhs) = some w ∧
      (∀ j : Nat, j ∉ sw.Indexes → w.opIndex j = v.opIndex j) ∧
      (∀ k j : Nat, sw.Indexes[k]? = some j →
        (∀ k2 : Nat, k < k2 → sw.Indexes[k2]? ≠ some j) →
          ∃ c, rhs[k]? = some c ∧ w.opIndex j = some c) := by
  obtain ⟨hcount, hidx⟩ := Vec3.swizzles_bounds_vec3 sw hsw
  obtain ⟨out, hout, hl, hkeep, hput⟩ := sw.assign_spec v.array rhs hrhs hidx hcount
  obtain ⟨w, hw, hwa⟩ := Vec3.ofArray_of_length_vec3 out hl
  refine ⟨w, by simp [Vec3.swizzleAssign, hout, hw], ?_, ?_⟩
  · intro j hj
    simpa [Vec3.opIndex, hwa] using hkeep j hj
  · intro k j hkj hlast
    simpa [Vec3.opIndex, hwa] using hput k j hkj hlast

theorem Swizzler.assign_aliased_spec (s : Swizzler) (mem : List α)
    (hidx : ∀ j ∈ s.Indexes, j < s.Count) (hlen : s.Count ≤ mem.length) :
    ∃ out, s.assign mem Rhs.aliased = some out ∧ out.length = mem.length ∧
      (∀ j : Nat, j ∉ s.Indexes → out[j]? = mem[j]?) := by
  obtain ⟨out, hout, hl, hkeep⟩ := s.assignLoop_aliased hidx s.Count 0 mem (by omega) hlen
  exact ⟨out, hout, hl, fun j hj => hkeep j (fun k _ hk => hj (List.getElem?_mem hk))⟩

theorem Vec2.swizzleAssign_aliased_vec2 (v : Vec2 α) (sw : Swizzler) (hsw : sw ∈ Vec2.swizzles) :
    ∃ w, v.swizzleAssign sw Rhs.aliased = some w ∧
      sw.assign v.array Rhs.aliased = some w.array ∧
      (∀ j : Nat, j ∉ sw.Indexes → w.opIndex j = v.opIndex j) := by
  obtain ⟨hcount, hidx⟩ := Vec2.swizzles_bounds_vec2 sw hsw
  obtain ⟨out, hout, hl, hkeep⟩ := sw.assign_aliased_spec v.array hidx hcount
  obtain ⟨w, hw, hwa⟩ := Vec2.ofArray_of_length_vec2 out hl
  refine ⟨w, by simp [Vec2.swizzleAssign, hout, hw], by rw [hout, hwa], ?_⟩
  intro j hj
  simpa [Vec2.opIndex, hwa] using hkeep j hj

theorem Vec3.swizzleAssign_aliased_vec3 (v : Vec3 α) (sw : Swizzler) (hsw : sw ∈ Vec3.swizzles) :
    ∃ w, v.swizzleAssign sw Rhs.aliased = some w ∧
      sw.assign v.array Rhs.aliased = some w.array ∧
      (∀ j : Nat, j ∉ sw.Indexes → w.opIndex j = v.opIndex j) := by
  obtain ⟨hcount, hidx⟩ := Vec3.swizzles_bounds_vec3 sw hsw
  obtain ⟨out, hout, hl, hkeep⟩ := sw.assign_aliased_spec v.array hidx hcount
  obtain ⟨w, hw, hwa⟩ := Vec3.ofArray_of_length_vec3 out hl
  refine ⟨w, by simp [Vec3.swizzleAssign, hout, hw], by rw [hout, hwa], ?_⟩
  intro j hj
  simpa [Vec3.opIndex, hwa] using hkeep j hj

theorem Swizzler.last_of_nodup (s : Swizzler) (hnd : s.Indexes.Nodup) (k j : Nat)
    (hkj : s.Indexes[k]? = some j) : ∀ k2 : Nat, k < k2 → s.Indexes[k2]? ≠ some j := by
  intro k2 hk2 h2
  by_cases hlt : k2 < s.Indexes.length
  · exact List.nodup_iff_getElem?_ne_getElem?.1 hnd k k2 hk2 hlt (hkj.trans h2.symm)
  · rw [List.getElem?_eq_none (by omega)] at h2
    exact absurd h2 (by simp)

/-- C2: for every swizzle accessor of `Vec2` and of `Vec3` and every backing
aggregate, reading the swizzle returns a new aggregate of `K` components whose
`i`-th component is the backing aggregate's component `indices[i]`; the read is
a function of the backing aggregate alone (a `const` member without a store).
For `v = {1,2,3}`, `v.zyx` is `{3,2,1}`. -/
theorem C2_swizzle_read (sw : Swizzler) (v2 : Vec2 α) (v3 : Vec3 α) :
    (sw ∈ Vec2.swizzles →
      ∃ out, v2.swizzleRead sw = some out ∧ out.length = sw.Count ∧
        ∀ i j : Nat, sw.Indexes[i]? = some j →
          ∃ c, v2.opIndex j = some c ∧ out[i]? = some c) ∧
    (sw ∈ Vec3.swizzles →
      ∃ out, v3.swizzleRead sw = some out ∧ out.length = sw.Count ∧
        ∀ i j : Nat, sw.Indexes[i]? = some j →
          ∃ c, v3.opIndex j = some c ∧ out[i]? = some c) ∧
    ((Vec3.mk 1 2 3 : Vec3 ℚ).swizzleRead Vec3.zyx).bind Vec3.ofArray
      = some (Vec3.mk 3 2 1) := by
  refine ⟨?_, ?_, rfl⟩
  · intro hsw
    obtain ⟨hcount, hidx⟩ := Vec2.swizzles_bounds_vec2 sw hsw
    exact sw.read_spec v2.array hidx hcount
  · intro hsw
    obtain ⟨hcount, hidx⟩ := Vec3.swizzles_bounds_vec3 sw hsw
    exact sw.read_spec v3.array hidx hcount

/-- Witness for C2: the accessor `zyx` of `Vec3` on `{1,2,3}`. -/
theorem C2_swizzle_read_witness :
    Vec3.zyx ∈ Vec3.swizzles ∧
    ∃ out, (Vec3.mk 1 2 3 : Vec3 ℚ).swizzleRead Vec3.zyx = some out ∧
      out.length = Vec3.zyx.Count ∧
      ∀ i j : Nat, Vec3.zyx.Indexes[i]? = some j →
        ∃ c, (Vec3.mk 1 2 3 : Vec3 ℚ).opIndex j = some c ∧ out[i]? = some c :=
  ⟨by decide, (C2_swizzle_read Vec3.zyx (Vec2.mk 1 2) (Vec3.mk 1 2 3)).2.1 (by decide)⟩

/-- C3, as stated, fails when `rhs` is the storage being written. With
`Vec3 v{1,2,3}`, the assignment `v.zyx = v` leaves `{1,2,1}`: position 2 of
`zyx` names component 0, `rhs[2]` is 3 when the assignment starts, and
component 0 ends as 1, because the first iteration has overwritten `rhs[2]`.
With `v.zxy = v` the aggregate ends as `{2,1,1}`, where component 1 (named by
position 2) is 1 and not the initial `rhs[2] = 3`, and component 2 (named by
position 0) is 1 and not the final `rhs[0] = 2`. -/
theorem C3_counterexample :
    Vec3.zyx ∈ Vec3.swizzles ∧ Vec3.zyx.Indexes.Nodup ∧
    (Vec3.mk 1 2 3 : Vec3 ℚ).swizzleAssign Vec3.zyx Rhs.aliased = some (Vec3.mk 1 2 1) ∧
    Vec3.zyx.Indexes[2]? = some 0 ∧
    (Rhs.aliased : Rhs ℚ).get Vec3.zyx.Count (Vec3.mk 1 2 3 : Vec3 ℚ).array 2 = some 3 ∧
    (Vec3.mk 1 2 1 : Vec3 ℚ).opIndex 0 = some 1 ∧
    ¬ (∀ i j : Nat, Vec3.zyx.Indexes[i]? = some j →
        ∃ c, (Rhs.aliased : Rhs ℚ).get Vec3.zyx.Count (Vec3.mk 1 2 3 : Vec3 ℚ).array i = some c ∧
          (Vec3.mk 1 2 1 : Vec3 ℚ).opIndex j = some c) ∧
    Vec3.zxy ∈ Vec3.swizzles ∧ Vec3.zxy.Indexes.Nodup ∧
    (Vec3.mk 1 2 3 : Vec3 ℚ).swizzleAssign Vec3.zxy Rhs.aliased = some (Vec3.mk 2 1 1) ∧
    Vec3.zxy.Indexes = [2, 0, 1] := by
  refine ⟨by decide, by decide, rfl, rfl, rfl, rfl, ?_, by decide, by decide, rfl, rfl⟩
  intro h
  obtain ⟨c, hc1, hc2⟩ := h 2 0 rfl
  have h3 : (3 : ℚ) = c := Option.some.inj hc1
  have h1 : (1 : ℚ) = c := Option.some.inj hc2
  rw [← h3] at h1
  norm_num at h1

/-- C3, amended: for every swizzle accessor of `Vec2` and of `Vec3` with
pairwise distinct indices, every backing aggregate `v` and every right-hand side
of `K` components that is an aggregate of its own (not `v` itself and not the
reference returned by an earlier swizzle assignment to `v`), the assignment
sets component `indices[i]` to `rhs[i]` for every `i` in `[0,K)` and keeps every
component whose index is not in the list; the components outside the list are
also kept when `rhs` is in the storage of `v`. For `v = {1,2,3}`, after
`v.xy = {9,8}` the aggregate is `{9,8,3}`. -/
theorem C3_swizzle_assign_distinct (sw : Swizzler) (hnd : sw.Indexes.Nodup)
    (v2 : Vec2 α) (v3 : Vec3 α) (rhs : List α) (hrhs : rhs.length = sw.Count) :
    (sw ∈ Vec2.swizzles →
      ∃ w, v2.swizzleAssign sw (Rhs.separate rhs) = some w ∧
        (∀ i j : Nat, sw.Indexes[i]? = some j →
          ∃ c, rhs[i]? = some c ∧ w.opIndex j = some c) ∧
        (∀ j : Nat, j ∉ sw.Indexes → w.opIndex j = v2.opIndex j)) ∧
    (sw ∈ Vec3.swizzles →
      ∃ w, v3.swizzleAssign sw (Rhs.separate rhs) = some w ∧
        (∀ i j : Nat, sw.Indexes[i]? = some j →
          ∃ c, rhs[i]? = some c ∧ w.opIndex j = some c) ∧
        (∀ j : Nat, j ∉ sw.Indexes → w.opIndex j = v3.opIndex j)) ∧
    (Vec3.mk 1 2 3 : Vec3 ℚ).swizzleAssign Vec3.xy (Rhs.separate (Vec2.mk 9 8 : Vec2 ℚ).array)
      = some (Vec3.mk 9 8 3) ∧
    (sw ∈ Vec2.swizzles →
      ∃ w, v2.swizzleAssign sw Rhs.aliased = some w ∧
        (∀ j : Nat, j ∉ sw.Indexes → w.opIndex j = v2.opIndex j)) ∧
    (sw ∈ Vec3.swizzles →
      ∃ w, v3.swizzleAssign sw Rhs.aliased = some w ∧
        (∀ j : Nat, j ∉ sw.Indexes → w.opIndex j = v3.opIndex j)) := by
  refine ⟨?_, ?_, rfl, ?_, ?_⟩
  · intro hsw
    obtain ⟨w, hw, hkeep, hput⟩ := Vec2.swizzleAssign_spec_vec2 v2 sw hsw rhs hrhs
    exact ⟨w, hw, fun i j hij => hput i j hij (sw.last_of_nodup hnd i j hij), hkeep⟩
  · intro hsw
    obtain ⟨w, hw, hkeep, hput⟩ := Vec3.swizzleAssign_spec_vec3 v3 sw hsw rhs hrhs
    exact ⟨w, hw, fun i j hij => hput i j hij (sw.last_of_nodup hnd i j hij), hkeep⟩
  · intro hsw
    obtain ⟨w, hw, _, hkeep⟩ := Vec2.swizzleAssign_aliased_vec2 v2 sw hsw
    exact ⟨w, hw, hkeep⟩
  · intro hsw
    obtain ⟨w, hw, _, hkeep⟩ := Vec3.swizzleAssign_aliased_vec3 v3 sw hsw
    exact ⟨w, hw, hkeep⟩

/-- Witness for C3: the accessor `xy` of `Vec3` on `{1,2,3}` with `{9,8}`. -/
theorem C3_swizzle_assign_distinct_witness :
    Vec3.xy.Indexes.Nodup ∧ [(9 : ℚ), 8].length = Vec3.xy.Count ∧ Vec3.xy ∈ Vec3.swizzles ∧
    ∃ w, (Vec3.mk 1 2 3 : Vec3 ℚ).swizzleAssign Vec3.xy (Rhs.separate [9, 8]) = some w ∧
      (∀ i j : Nat, Vec3.xy.Indexes[i]? = some j →
        ∃ c, [(9 : ℚ), 8][i]? = some c ∧ w.opIndex j = some c) ∧
      (∀ j : Nat, j ∉ Vec3.xy.Indexes → w.opIndex j = (Vec3.mk 1 2 3 : Vec3 ℚ).opIndex j) :=
  ⟨by decide, rfl, by decide,
   (C3_swizzle_assign_distinct Vec3.xy (by decide) (Vec2.mk 1 2 : Vec2 ℚ)
      (Vec3.mk 1 2 3 : Vec3 ℚ) ([9, 8] : List ℚ) rfl).2.1 (by decide)⟩

theorem List.exists_last_getElem? (l : List Nat) (j : Nat) (hj : j ∈ l) :
    ∃ i : Nat, l[i]? = some j ∧ ∀ k : Nat, i < k → l[k]? ≠ some j := by
  induction l with
  | nil => exact absurd hj (List.not_mem_nil j)
  | cons a l ih =>
    by_cases hjl : j ∈ l
    · obtain ⟨i, hi, hlast⟩ := ih hjl
      refine ⟨i + 1, by simpa using hi, ?_⟩
      intro k hk
      obtain ⟨k1, rfl⟩ : ∃ k1, k = k1 + 1 := ⟨k - 1, by omega⟩
      simpa using hlast k1 (by omega)
    · have haj : j = a := by
        rcases List.mem_cons.1 hj with h | h
        · exact h
        · exact absurd h hjl
      refine ⟨0, by simp [haj], ?_⟩
      intro k hk
      obtain ⟨k1, rfl⟩ : ∃ k1, k = k1 + 1 := ⟨k - 1, by omega⟩
      intro h
      exact hjl (List.getElem?_mem (by simpa using h))

theorem List.exists_overwritten_getElem? (l : List Nat) (j : Nat) (hrep : 2 ≤ l.count j) :
    ∃ i0 i : Nat, i0 < i ∧ l[i0]? = some j ∧ l[i]? = some j ∧
      ∀ k : Nat, i < k → l[k]? ≠ some j := by
  induction l with
  | nil => simp at hrep
  | cons a l ih =>
    by_cases h2 : 2 ≤ l.count j
    · obtain ⟨i0, i, hlt, h0, hi, hlast⟩ := ih h2
      refine ⟨i0 + 1, i + 1, by omega, by simpa using h0, by simpa using hi, ?_⟩
      intro k hk
      obtain ⟨k1, rfl⟩ : ∃ k1, k = k1 + 1 := ⟨k - 1, by omega⟩
      simpa using hlast k1 (by omega)
    · have haj : a = j := by
        by_contra hne
        rw [List.count_cons_of_ne (fun h => hne h.symm)] at hrep
        exact h2 hrep
      have h1 : 1 ≤ l.count j := by
        rw [haj, List.count_cons_self] at hrep
        omega
      obtain ⟨i, hi, hlast⟩ := List.exists_last_getElem? l j (List.count_pos_iff.1 h1)
      refine ⟨0, i + 1, by omega, by simp [haj], by simpa using hi, ?_⟩
      intro k hk
      obtain ⟨k1, rfl⟩ : ∃ k1, k = k1 + 1 := ⟨k - 1, by omega⟩
      simpa using hlast k1 (by omega)

/-- C4, as stated, fails when `rhs` is the storage being written. With
`Vec2 v{1,2}`, the assignment `v.yy = v` leaves `{1,1}`: index 1 is repeated,
its greatest position is 1, `rhs[1]` is 2 when the assignment starts, and
component 1 ends as 1, because the first iteration has overwritten `rhs[1]`.
With `Vec3 v{1,2,3}`, `v.zyz = v` leaves `{1,2,1}`: component 2 ends as 1 and
not `rhs[2] = 3`. -/
theorem C4_counterexample :
    Vec2.yy ∈ Vec2.swizzles ∧ 2 ≤ Vec2.yy.Indexes.count 1 ∧
    (Vec2.mk 1 2 : Vec2 ℚ).swizzleAssign Vec2.yy Rhs.aliased = some (Vec2.mk 1 1) ∧
    Vec2.yy.Indexes[1]? = some 1 ∧ (∀ k : Nat, 1 < k → Vec2.yy.Indexes[k]? ≠ some 1) ∧
    (Rhs.aliased : Rhs ℚ).get Vec2.yy.Count (Vec2.mk 1 2 : Vec2 ℚ).array 1 = some 2 ∧
    (Vec2.mk 1 1 : Vec2 ℚ).opIndex 1 = some 1 ∧
    ¬ (∃ c, (Rhs.aliased : Rhs ℚ).get Vec2.yy.Count (Vec2.mk 1 2 : Vec2 ℚ).array 1 = some c ∧
        (Vec2.mk 1 1 : Vec2 ℚ).opIndex 1 = some c) ∧
    Vec3.zyz ∈ Vec3.swizzles ∧ 2 ≤ Vec3.zyz.Indexes.count 2 ∧
    (Vec3.mk 1 2 3 : Vec3 ℚ).swizzleAssign Vec3.zyz Rhs.aliased = some (Vec3.mk 1 2 1) ∧
    Vec3.zyz.Indexes = [2, 1, 2] := by
  refine ⟨by decide, by decide, rfl, rfl, ?_, rfl, rfl, ?_, by decide, by decide, rfl, rfl⟩
  · intro k hk
    obtain ⟨k1, rfl⟩ : ∃ k1, k = k1 + 2 := ⟨k - 2, by omega⟩
    simp [Vec2.yy]
  · rintro ⟨c, hc1, hc2⟩
    have h2 : (2 : ℚ) = c := Option.some.inj hc1
    have h1 : (1 : ℚ) = c := Option.some.inj hc2
    rw [← h2] at h1
    norm_num at h1

/-- C4, amended: for every swizzle accessor of `Vec2` and of `Vec3` whose index
list repeats an index `j`, every backing aggregate `v` and every right-hand side
that is an aggregate of its own (not `v` itself and not the reference returned
by an earlier swizzle assignment to `v`), after the assignment component `j`
equals `rhs[i]` for the greatest position `i` with `indices[i] = j` (the last
write wins over the write of an earlier position `i0`), and the components
outside the index list are unchanged; these are also unchanged when `rhs` is in
the storage of `v`. After `v.xx = {5,6}` component 0 is 6 and the other
components are unchanged. -/
theorem C4_swizzle_assign_repeated (sw : Swizzler) (j : Nat) (hrep : 2 ≤ sw.Indexes.count j)
    (v2 : Vec2 α) (v3 : Vec3 α) (rhs : List α) (hrhs : rhs.length = sw.Count) :
    (sw ∈ Vec2.swizzles →
      ∃ w, v2.swizzleAssign sw (Rhs.separate rhs) = some w ∧
        (∃ i0 i : Nat, i0 < i ∧ sw.Indexes[i0]? = some j ∧ sw.Indexes[i]? = some j ∧
          (∀ k : Nat, i < k → sw.Indexes[k]? ≠ some j) ∧
          ∃ c, rhs[i]? = some c ∧ w.opIndex j = some c) ∧
        (∀ n : Nat, n ∉ sw.Indexes → w.opIndex n = v2.opIndex n)) ∧
    (sw ∈ Vec3.swizzles →
      ∃ w, v3.swizzleAssign sw (Rhs.separate rhs) = some w ∧
        (∃ i0 i : Nat, i0 < i ∧ sw.Indexes[i0]? = some j ∧ sw.Indexes[i]? = some j ∧
          (∀ k : Nat, i < k → sw.Indexes[k]? ≠ some j) ∧
          ∃ c, rhs[i]? = some c ∧ w.opIndex j = some c) ∧
        (∀ n : Nat, n ∉ sw.Indexes → w.opIndex n = v3.opIndex n)) ∧
    (∀ a b : ℚ, (Vec2.mk a b).swizzleAssign Vec2.xx (Rhs.separate (Vec2.mk 5 6 : Vec2 ℚ).array)
      = some (Vec2.mk 6 b)) ∧
    (∀ a b c : ℚ,
      (Vec3.mk a b c).swizzleAssign Vec3.xx (Rhs.separate (Vec2.mk 5 6 : Vec2 ℚ).array)
        = some (Vec3.mk 6 b c)) ∧
    (sw ∈ Vec2.swizzles →
      ∃ w, v2.swizzleAssign sw Rhs.aliased = some w ∧
        (∀ n : Nat, n ∉ sw.Indexes → w.opIndex n = v2.opIndex n)) ∧
    (sw ∈ Vec3.swizzles →
      ∃ w, v3.swizzleAssign sw Rhs.aliased = some w ∧
        (∀ n : Nat, n ∉ sw.Indexes → w.opIndex n = v3.opIndex n)) := by
  obtain ⟨i0, i, hlt, h0, hi, hlast⟩ := List.exists_overwritten_getElem? sw.Indexes j hrep
  refine ⟨?_, ?_, fun _ _ => rfl, fun _ _ _ => rfl, ?_, ?_⟩
  rotate_left 2
  · intro hsw
    obtain ⟨w, hw, _, hkeep⟩ := Vec2.swizzleAssign_aliased_vec2 v2 sw hsw
    exact ⟨w, hw, hkeep⟩
  · intro hsw
    obtain ⟨w, hw, _, hkeep⟩ := Vec3.swizzleAssign_aliased_vec3 v3 sw hsw
    exact ⟨w, hw, hkeep⟩
  · intro hsw
    obtain ⟨w, hw, hkeep, hput⟩ := Vec2.swizzleAssign_spec_vec2 v2 sw hsw rhs hrhs
    exact ⟨w, hw, ⟨i0, i, hlt, h0, hi, hlast, hput i j hi hlast⟩, hkeep⟩
  · intro hsw
    obtain ⟨w, hw, hkeep, hput⟩ := Vec3.swizzleAssign_spec_vec3 v3 sw hsw rhs hrhs
    exact ⟨w, hw, ⟨i0, i, hlt, h0, hi, hlast, hput i j hi hlast⟩, hkeep⟩

/-- Witness for C4: the accessor `xx` of `Vec2` on `{1,2}` with `{5,6}`; index 0
is repeated. -/
theorem C4_swizzle_assign_repeated_witness :
    2 ≤ Vec2.xx.Indexes.count 0 ∧ [(5 : ℚ), 6].length = Vec2.xx.Count ∧
    Vec2.xx ∈ Vec2.swizzles ∧
    ∃ w, (Vec2.mk 1 2 : Vec2 ℚ).swizzleAssign Vec2.xx (Rhs.separate [5, 6]) = some w ∧
      (∃ i0 i : Nat, i0 < i ∧ Vec2.xx.Indexes[i0]? = some 0 ∧ Vec2.xx.Indexes[i]? = some 0 ∧
        (∀ k : Nat, i < k → Vec2.xx.Indexes[k]? ≠ some 0) ∧
        ∃ c, [(5 : ℚ), 6][i]? = some c ∧ w.opIndex 0 = some c) ∧
      (∀ n : Nat, n ∉ Vec2.xx.Indexes → w.opIndex n = (Vec2.mk 1 2 : Vec2 ℚ).opIndex n) :=
  ⟨by decide, rfl, by decide,
   (C4_swizzle_assign_repeated Vec2.xx 0 (by decide) (Vec2.mk 1 2 : Vec2 ℚ)
      (Vec3.mk 1 2 3 : Vec3 ℚ) ([5, 6] : List ℚ) rfl).1 (by decide)⟩

/-- C9: for `Vec2`, `Vec3` and `Vec4` the indexed, named-field and swizzle views
share one storage. After writing `c` through `operator[](i)` at a valid index
`i`, the named field at position `i` reads `c`, the other named fields are
unchanged, and every swizzle read gathers the updated named fields; after a
write through a named field, `operator[]` reads the written value; after a
write through a swizzle, `operator[]` and the named fields read the written
values (for each index of the list, the value of the last position naming
it). -/
theorem C9_views_share_storage (v2 : Vec2 α) (v3 : Vec3 α) (v4 : Vec4 α) (i : Nat) (c : α)
    (sw : Swizzler) (rhs : List α) (hrhs : rhs.length = sw.Count) :
    (i < 2 → ∃ w, v2.opIndexSet i c = some w ∧ w.field i = some c ∧
      (∀ n : Nat, n ≠ i → w.field n = v2.field n) ∧
      (sw ∈ Vec2.swizzles → ∃ out, w.swizzleRead sw = some out ∧
        ∀ k j : Nat, sw.Indexes[k]? = some j → ∃ d, w.field j = some d ∧ out[k]? = some d)) ∧
    (i < 3 → ∃ w, v3.opIndexSet i c = some w ∧ w.field i = some c ∧
      (∀ n : Nat, n ≠ i → w.field n = v3.field n) ∧
      (sw ∈ Vec3.swizzles → ∃ out, w.swizzleRead sw = some out ∧
        ∀ k j : Nat, sw.Indexes[k]? = some j → ∃ d, w.field j = some d ∧ out[k]? = some d)) ∧
    (i < 4 → ∃ w, v4.opIndexSet i c = some w ∧ w.field i = some c ∧
      (∀ n : Nat, n ≠ i → w.field n = v4.field n)) ∧
    (({ v2 with x := c }).opIndex 0 = some c ∧ ({ v2 with y := c }).opIndex 1 = some c) ∧
    (({ v3 with x := c }).opIndex 0 = some c ∧ ({ v3 with y := c }).opIndex 1 = some c ∧
      ({ v3 with z := c }).opIndex 2 = some c) ∧
    (({ v4 with x := c }).opIndex 0 = some c ∧ ({ v4 with y := c }).opIndex 1 = some c ∧
      ({ v4 with z := c }).opIndex 2 = some c ∧ ({ v4 with w := c }).opIndex 3 = some c) ∧
    (sw ∈ Vec2.swizzles → ∃ w, v2.swizzleAssign sw (Rhs.separate rhs) = some w ∧
      ∀ k j : Nat, sw.Indexes[k]? = some j → (∀ k2 : Nat, k < k2 → sw.Indexes[k2]? ≠ some j) →
        ∃ d, rhs[k]? = some d ∧ w.opIndex j = some d ∧ w.field j = some d) ∧
    (sw ∈ Vec3.swizzles → ∃ w, v3.swizzleAssign sw (Rhs.separate rhs) = some w ∧
      ∀ k j : Nat, sw.Indexes[k]? = some j → (∀ k2 : Nat, k < k2 → sw.Indexes[k2]? ≠ some j) →
        ∃ d, rhs[k]? = some d ∧ w.opIndex j = some d ∧ w.field j = some d) ∧
    (sw ∈ Vec2.swizzles → ∃ w, v2.swizzleAssign sw Rhs.aliased = some w ∧
      sw.assign v2.array Rhs.aliased = some w.array ∧ ∀ j : Nat, w.opIndex j = w.field j) ∧
    (sw ∈ Vec3.swizzles → ∃ w, v3.swizzleAssign sw Rhs.aliased = some w ∧
      sw.assign v3.array Rhs.aliased = some w.array ∧ ∀ j : Nat, w.opIndex j = w.field j) := by
  refine ⟨?_, ?_, ?_, ⟨rfl, rfl⟩, ⟨rfl, rfl, rfl⟩, ⟨rfl, rfl, rfl, rfl⟩, ?_, ?_, ?_, ?_⟩
  rotate_left 5
  · intro hsw
    obtain ⟨w, hw, hwa, _⟩ := Vec2.swizzleAssign_aliased_vec2 v2 sw hsw
    exact ⟨w, hw, hwa, fun j => Vec2.opIndex_eq_field_vec2 w j⟩
  · intro hsw
    obtain ⟨w, hw, hwa, _⟩ := Vec3.swizzleAssign_aliased_vec3 v3 sw hsw
    exact ⟨w, hw, hwa, fun j => Vec3.opIndex_eq_field_vec3 w j⟩
  · intro hi
    have hw : ∃ w, v2.opIndexSet i c = some w ∧ w.field i = some c ∧
        ∀ n : Nat, n ≠ i → w.field n = v2.field n := by
      interval_cases i
      · exact ⟨_, rfl, rfl, fun n hn => by
          match n, hn with
          | 1, _ => rfl
          | _ + 2, _ => rfl⟩
      · exact ⟨_, rfl, rfl, fun n hn => by
          match n, hn with
          | 0, _ => rfl
          | _ + 2, _ => rfl⟩
    obtain ⟨w, hw1, hw2, hw3⟩ := hw
    refine ⟨w, hw1, hw2, hw3, ?_⟩
    intro hsw
    obtain ⟨hcount, hidx⟩ := Vec2.swizzles_bounds_vec2 sw hsw
    obtain ⟨out, hout, _, hget⟩ := sw.read_spec w.array hidx hcount
    refine ⟨out, hout, ?_⟩
    intro k j hkj
    rw [← Vec2.opIndex_eq_field_vec2]
    exact hget k j hkj
  · intro hi
    have hw : ∃ w, v3.opIndexSet i c = some w ∧ w.field i = some c ∧
        ∀ n : Nat, n ≠ i → w.field n = v3.field n := by
      interval_cases i
      · exact ⟨_, rfl, rfl, fun n hn => by
          match n, hn with
          | 1, _ => rfl
          | 2, _ => rfl
          | _ + 3, _ => rfl⟩
      · exact ⟨_, rfl, rfl, fun n hn => by
          match n, hn with
          | 0, _ => rfl
          | 2, _ => rfl
          | _ + 3, _ => rfl⟩
      · exact ⟨_, rfl, rfl, fun n hn => by
          match n, hn with
          | 0, _ => rfl
          | 1, _ => rfl
          | _ + 3, _ => rfl⟩
    obtain ⟨w, hw1, hw2, hw3⟩ := hw
    refine ⟨w, hw1, hw2, hw3, ?_⟩
    intro hsw
    obtain ⟨hcount, hidx⟩ := Vec3.swizzles_bounds_vec3 sw hsw
    obtain ⟨out, hout, _, hget⟩ := sw.read_spec w.array hidx hcount
    refine ⟨out, hout, ?_⟩
    intro k j hkj
    rw [← Vec3.opIndex_eq_field_vec3]
    exact hget k j hkj
  · intro hi
    interval_cases i
    · exact ⟨_, rfl, rfl, fun n hn => by
        match n, hn with
        | 1, _ => rfl
        | 2, _ => rfl
        | 3, _ => rfl
        | _ + 4, _ => rfl⟩
    · exact ⟨_, rfl, rfl, fun n hn => by
        match n, hn with
        | 0, _ => rfl
        | 2, _ => rfl
        | 3, _ => rfl
        | _ + 4, _ => rfl⟩
    · exact ⟨_, rfl, rfl, fun n hn => by
        match n, hn with
        | 0, _ => rfl
        | 1, _ => rfl
        | 3, _ => rfl
        | _ + 4, _ => rfl⟩
    · exact ⟨_, rfl, rfl, fun n hn => by
        match n, hn with
        | 0, _ => rfl
        | 1, _ => rfl
        | 2, _ => rfl
        | _ + 4, _ => rfl⟩
  · intro hsw
    obtain ⟨w, hw, _, hput⟩ := Vec2.swizzleAssign_spec_vec2 v2 sw hsw rhs hrhs
    refine ⟨w, hw, ?_⟩
    intro k j hkj hlast
    obtain ⟨d, hd1, hd2⟩ := hput k j hkj hlast
    exact ⟨d, hd1, hd2, by rw [← Vec2.opIndex_eq_field_vec2]; exact hd2⟩
  · intro hsw
    obtain ⟨w, hw, _, hput⟩ := Vec3.swizzleAssign_spec_vec3 v3 sw hsw rhs hrhs
    refine ⟨w, hw, ?_⟩
    intro k j hkj hlast
    obtain ⟨d, hd1, hd2⟩ := hput k j hkj hlast
    exact ⟨d, hd1, hd2, by rw [← Vec3.opIndex_eq_field_vec3]; exact hd2⟩

/-- Witness for C9: the accessor `xy` (a member of `Vec2` and of `Vec3`), index
1, value 7 and right-hand side `{9,8}`, on `{1,2}`, `{1,2,3}` and `{1,2,3,4}`;
the part shown is the one for `Vec3`. -/
theorem C9_views_share_storage_witness :
    ([9, 8] : List ℚ).length = Vec3.xy.Count ∧ 1 < 3 ∧ Vec3.xy ∈ Vec3.swizzles ∧
    ((Vec3.mk 1 2 3 : Vec3 ℚ).opIndexSet 1 7).bind (fun w => w.swizzleRead Vec3.zyx)
      = some [3, 7, 1] ∧
    (∃ w, (Vec3.mk 1 2 3 : Vec3 ℚ).opIndexSet 1 7 = some w ∧ w.field 1 = some 7 ∧
      (∀ n : Nat, n ≠ 1 → w.field n = (Vec3.mk 1 2 3 : Vec3 ℚ).field n) ∧
      (Vec3.xy ∈ Vec3.swizzles → ∃ out, w.swizzleRead Vec3.xy = some out ∧
        ∀ k j : Nat, Vec3.xy.Indexes[k]? = some j →
          ∃ d, w.field j = some d ∧ out[k]? = some d)) ∧
    (∃ w, (Vec3.mk 1 2 3 : Vec3 ℚ).swizzleAssign Vec3.xy (Rhs.separate [9, 8]) = some w ∧
      ∀ k j : Nat, Vec3.xy.Indexes[k]? = some j →
        (∀ k2 : Nat, k < k2 → Vec3.xy.Indexes[k2]? ≠ some j) →
          ∃ d, ([9, 8] : List ℚ)[k]? = some d ∧ w.opIndex j = some d ∧ w.field j = some d) :=
  ⟨rfl, by decide, by decide, rfl,
   (C9_views_share_storage (Vec2.mk 1 2 : Vec2 ℚ) (Vec3.mk 1 2 3 : Vec3 ℚ)
      (Vec4.mk 1 2 3 4 : Vec4 ℚ) 1 7 Vec3.xy ([9, 8] : List ℚ) rfl).2.1 (by decide),
   (C9_views_share_storage (Vec2.mk 1 2 : Vec2 ℚ) (Vec3.mk 1 2 3 : Vec3 ℚ)
      (Vec4.mk 1 2 3 4 : Vec4 ℚ) 1 7 Vec3.xy ([9, 8] : List ℚ) rfl).2.2.2.2.2.2.2.1
      (by decide)⟩

end SwizzleTheorems

/-! ## Construction, cell formulas and the swizzle round trip -/

section LaterTheorems

variable {R : Type} {α : Type}

/-- C11: a default-constructed `Mat4` has all 16 cells equal to zero (named
cells and indexed elements), and therefore differs from `Identity()`, whose
cells `m0, m5, m10, m15` are 1. -/
theorem C11_default_is_zero [Zero R] (k : Fin 16) :
    (Mat4.default : Mat4 R).cell k = 0 ∧
    (Mat4.default : Mat4 R).opIndex k.val = some 0 ∧
    (Mat4.Identity : Mat4 ℚ).m0 = 1 ∧ (Mat4.Identity : Mat4 ℚ).m5 = 1 ∧
    (Mat4.Identity : Mat4 ℚ).m10 = 1 ∧ (Mat4.Identity : Mat4 ℚ).m15 = 1 ∧
    (Mat4.default : Mat4 ℚ) ≠ Mat4.Identity := by
  refine ⟨?_, ?_, rfl, rfl, rfl, rfl, ?_⟩
  · fin_cases k <;> rfl
  · fin_cases k <;> rfl
  · intro h
    have h0 : (0 : ℚ) = 1 := congrArg Mat4.m0 h
    exact zero_ne_one h0

/-- C13: for all matrices `A` and `B`, cell `m(4·c+r)` of `A.Multiply(B)` (and
of `operator*(A, B)`) equals `Σ_k B.m(4·k+r) · A.m(4·c+k)` for every `r` and
`c` in 0..3: with `m[row][col] = m(4·col+row)` the value is the matrix product
`B·A`, so the transform of the left operand `A` is applied first to a column
vector `p`. -/
theorem C13_multiply_cells [CommRing R] (A B : Mat4 R) (r c : Fin 4) (p : Fin 4 → R) :
    (A.Multiply B).cell ⟨4 * c.val + r.val, by omega⟩
      = ∑ k : Fin 4, B.cell ⟨4 * k.val + r.val, by omega⟩ * A.cell ⟨4 * c.val + k.val, by omega⟩ ∧
    (operatorMul A B).cell ⟨4 * c.val + r.val, by omega⟩
      = ∑ k : Fin 4, B.cell ⟨4 * k.val + r.val, by omega⟩ * A.cell ⟨4 * c.val + k.val, by omega⟩ ∧
    (A.Multiply B).toMatrix = B.toMatrix * A.toMatrix ∧
    (A.Multiply B).toMatrix.mulVec p = B.toMatrix.mulVec (A.toMatrix.mulVec p) := by
  refine ⟨Mat4.Multiply_entry_sum A B r c, operatorMul_entry_sum A B r c,
    Mat4.Multiply_toMatrix A B, ?_⟩
  rw [Mat4.Multiply_toMatrix, Matrix.mulVec_mulVec]

/-- C14: the member function `Mat4::Multiply` and the free `operator*` are the
same function: for all matrices `A` and `B`, `A.Multiply(B)` equals
`operator*(A, B)` in all 16 cells. -/
theorem C14_multiply_eq_operatorMul [Add R] [Mul R] (A B : Mat4 R) (k : Fin 16) :
    A.Multiply B = operatorMul A B ∧ (A.Multiply B).cell k = (operatorMul A B).cell k := by
  constructor
  · ext <;> rfl
  · fin_cases k <;> rfl

/-- C15: the 16-argument constructor takes its arguments as the four rows of
the matrix in reading order: `Mat4(a0,...,a15)` stores the `k`-th argument at
indexed element `k` and in the named cell `m(4·(k mod 4) + k div 4)`, that is
in the entry of row `k div 4` and column `k mod 4`; and
`Mat4(1,0,0,x, 0,1,0,y, 0,0,1,z, 0,0,0,1)` has `m12 = x`, `m13 = y`, `m14 = z`,
`m0 = m5 = m10 = m15 = 1` and every other cell 0. -/
theorem C15_constructor_rows [Zero R] [One R] (a : Fin 16 → R) (k : Fin 16) (x y z : R) :
    (Mat4.constructArgs a).opIndex k.val = some (a k) ∧
    (Mat4.constructArgs a).cell ⟨4 * (k.val % 4) + k.val / 4, by omega⟩ = a k ∧
    (Mat4.constructArgs a).entry ⟨k.val / 4, by omega⟩ ⟨k.val % 4, by omega⟩ = a k ∧
    Mat4.construct 1 0 0 x 0 1 0 y 0 0 1 z 0 0 0 1 =
      { m0 := 1, m1 := 0, m2 := 0, m3 := 0, m4 := 0, m5 := 1, m6 := 0, m7 := 0,
        m8 := 0, m9 := 0, m10 := 1, m11 := 0, m12 := x, m13 := y, m14 := z, m15 := 1 } ∧
    Mat4.construct 1 0 0 x 0 1 0 y 0 0 1 z 0 0 0 1 = Mat4.Translate x y z := by
  refine ⟨?_, ?_, ?_, rfl, rfl⟩
  · fin_cases k <;> rfl
  · fin_cases k <;> rfl
  · fin_cases k <;> rfl

theorem Swizzler.read_after_assign (s : Swizzler) (mem rhs : List α)
    (hrhs : rhs.length = s.Count) (hidx : ∀ j ∈ s.Indexes, j < s.Count)
    (hlen : s.Count ≤ mem.length) :
    ∃ w out, s.assign mem (Rhs.separate rhs) = some w ∧ w.length = mem.length ∧ s.read w = some out ∧
      out.length = s.Count ∧
      (s.Indexes.Nodup → out = rhs) ∧
      (¬ s.Indexes.Nodup → rhs.Nodup → out ≠ rhs) := by
  obtain ⟨w, hw, hwl, _, hput⟩ := s.assign_spec mem rhs hrhs hidx hlen
  obtain ⟨out, hout, hol, hget⟩ := s.read_spec w hidx (by rw [hwl]; exact hlen)
  refine ⟨w, out, hw, hwl, hout, hol, ?_, ?_⟩
  · intro hnd
    apply List.ext_getElem?
    intro i
    by_cases hi : i < s.Indexes.length
    · have hij : s.Indexes[i]? = some s.Indexes[i] := List.getElem?_eq_getElem hi
      obtain ⟨c, hc1, hc2⟩ := hget i _ hij
      obtain ⟨d, hd1, hd2⟩ := hput i _ hij (s.last_of_nodup hnd i _ hij)
      rw [hc2, hd1]
      rw [hc1] at hd2
      exact hd2
    · have h1 : out.length ≤ i := by
        rw [hol]
        simpa [Swizzler.Count] using hi
      have h2 : rhs.length ≤ i := by
        rw [hrhs]
        simpa [Swizzler.Count] using hi
      rw [List.getElem?_eq_none h1, List.getElem?_eq_none h2]
  · intro hnd hrn heq
    have hex : ∃ i j : Nat, i < j ∧ j < s.Indexes.length ∧ s.Indexes[i]? = s.Indexes[j]? := by
      by_contra hno
      apply hnd
      rw [List.nodup_iff_getElem?_ne_getElem?]
      intro i j hij hj h
      exact hno ⟨i, j, hij, hj, h⟩
    obtain ⟨i, j, hij, hj, hsame⟩ := hex
    have hjj : s.Indexes[j]? = some s.Indexes[j] := List.getElem?_eq_getElem hj
    obtain ⟨c, hc1, hc2⟩ := hget j _ hjj
    obtain ⟨d, hd1, hd2⟩ := hget i _ (hsame.trans hjj)
    have hcd : out[i]? = out[j]? := by
      rw [hc2, hd2, ← hc1, ← hd1]
    rw [heq] at hcd
    exact List.nodup_iff_getElem?_ne_getElem?.1 hrn i j hij
      (by rw [hrhs]; simpa [Swizzler.Count] using hj) hcd

/-- C12: every swizzle accessor of `Vec2` and of `Vec3` has all of its indices
inside `[0,N)` for the size `N` of its backing aggregate and inside `[0,K)` for
its own storage of `K` floats, so no swizzle read or write leaves the
aggregate: every load and store of an accessor on one of its indices returns a
value, and so do the read and the assignment as a whole. -/
theorem C12_swizzle_indexes_in_range (sw : Swizzler) (v2 : Vec2 α) (v3 : Vec3 α)
    (rhs : List α) (c : α) :
    (sw ∈ Vec2.swizzles →
      sw.Count ≤ 2 ∧
      (∀ j ∈ sw.Indexes, j < 2 ∧ j < sw.Count ∧ (v2.opIndex j).isSome ∧
        (sw.load v2.array j).isSome ∧ (sw.store v2.array j c).isSome) ∧
      (v2.swizzleRead sw).isSome ∧
      (rhs.length = sw.Count → (v2.swizzleAssign sw (Rhs.separate rhs)).isSome) ∧
      (v2.swizzleAssign sw Rhs.aliased).isSome) ∧
    (sw ∈ Vec3.swizzles →
      sw.Count ≤ 3 ∧
      (∀ j ∈ sw.Indexes, j < 3 ∧ j < sw.Count ∧ (v3.opIndex j).isSome ∧
        (sw.load v3.array j).isSome ∧ (sw.store v3.array j c).isSome) ∧
      (v3.swizzleRead sw).isSome ∧
      (rhs.length = sw.Count → (v3.swizzleAssign sw (Rhs.separate rhs)).isSome) ∧
      (v3.swizzleAssign sw Rhs.aliased).isSome) := by
  constructor
  · intro hsw
    obtain ⟨hcount, hidx⟩ := Vec2.swizzles_bounds_vec2 sw hsw
    refine ⟨hcount, ?_, ?_, ?_, ?_⟩
    rotate_left 3
    · obtain ⟨w, hw, _⟩ := Vec2.swizzleAssign_aliased_vec2 v2 sw hsw
      simp [hw]
    · intro j hj
      have hjc := hidx j hj
      have hj2 : j < 2 := lt_of_lt_of_le hjc hcount
      have hjl : j < v2.array.length := hj2
      refine ⟨hj2, hjc, ?_, ?_, ?_⟩
      · simp [Vec2.opIndex, List.getElem?_eq_getElem hjl]
      · simp [Swizzler.load, hjc, List.getElem?_eq_getElem hjl]
      · simp [Swizzler.store, hjc, hjl]
    · obtain ⟨out, hout, _⟩ := sw.read_spec v2.array hidx hcount
      simp [Vec2.swizzleRead, hout]
    · intro hrhs
      obtain ⟨w, hw, _⟩ := Vec2.swizzleAssign_spec_vec2 v2 sw hsw rhs hrhs
      simp [hw]
  · intro hsw
    obtain ⟨hcount, hidx⟩ := Vec3.swizzles_bounds_vec3 sw hsw
    refine ⟨hcount, ?_, ?_, ?_, ?_⟩
    rotate_left 3
    · obtain ⟨w, hw, _⟩ := Vec3.swizzleAssign_aliased_vec3 v3 sw hsw
      simp [hw]
    · intro j hj
      have hjc := hidx j hj
      have hj3 : j < 3 := lt_of_lt_of_le hjc hcount
      have hjl : j < v3.array.length := hj3
      refine ⟨hj3, hjc, ?_, ?_, ?_⟩
      · simp [Vec3.opIndex, List.getElem?_eq_getElem hjl]
      · simp [Swizzler.load, hjc, List.getElem?_eq_getElem hjl]
      · simp [Swizzler.store, hjc, hjl]
    · obtain ⟨out, hout, _⟩ := sw.read_spec v3.array hidx hcount
      simp [Vec3.swizzleRead, hout]
    · intro hrhs
      obtain ⟨w, hw, _⟩ := Vec3.swizzleAssign_spec_vec3 v3 sw hsw rhs hrhs
      simp [hw]

/-- Witness for C12: the accessor `zyx` of `Vec3` on `{1,2,3}` with `{7,8,9}`. -/
theorem C12_swizzle_indexes_in_range_witness :
    Vec3.zyx ∈ Vec3.swizzles ∧ ([7, 8, 9] : List ℚ).length = Vec3.zyx.Count ∧
    (Vec3.zyx.Count ≤ 3 ∧
      (∀ j ∈ Vec3.zyx.Indexes, j < 3 ∧ j < Vec3.zyx.Count ∧
        ((Vec3.mk 1 2 3 : Vec3 ℚ).opIndex j).isSome ∧
        (Vec3.zyx.load (Vec3.mk 1 2 3 : Vec3 ℚ).array j).isSome ∧
        (Vec3.zyx.store (Vec3.mk 1 2 3 : Vec3 ℚ).array j 0).isSome) ∧
      ((Vec3.mk 1 2 3 : Vec3 ℚ).swizzleRead Vec3.zyx).isSome ∧
      (([7, 8, 9] : List ℚ).length = Vec3.zyx.Count →
        ((Vec3.mk 1 2 3 : Vec3 ℚ).swizzleAssign Vec3.zyx (Rhs.separate [7, 8, 9])).isSome) ∧
      ((Vec3.mk 1 2 3 : Vec3 ℚ).swizzleAssign Vec3.zyx Rhs.aliased).isSome) :=
  ⟨by decide, rfl,
   (C12_swizzle_indexes_in_range Vec3.zyx (Vec2.mk 1 2 : Vec2 ℚ) (Vec3.mk 1 2 3 : Vec3 ℚ)
      ([7, 8, 9] : List ℚ) 0).2 (by decide)⟩

/-- C16, as stated, fails when `rhs` is the storage being written. With
`Vec2 v{1,2}`, the assignment `v.yx = v` leaves `{1,1}` and the read of `v.yx`
that follows returns `{1,1}`, not the `{1,2}` that `rhs` held when the
assignment started. With `Vec3 v{1,2,3}`, `v.zxy = v` leaves `{2,1,1}` and the
read of `v.zxy` returns `{1,2,1}`, which is neither the initial `rhs = {1,2,3}`
nor the final `rhs = {2,1,1}`. -/
theorem C16_counterexample :
    Vec2.yx ∈ Vec2.swizzles ∧ Vec2.yx.Indexes.Nodup ∧
    (Vec2.mk 1 2 : Vec2 ℚ).swizzleAssign Vec2.yx Rhs.aliased = some (Vec2.mk 1 1) ∧
    (Vec2.mk 1 1 : Vec2 ℚ).swizzleRead Vec2.yx = some [1, 1] ∧
    ((Vec2.mk 1 2 : Vec2 ℚ).swizzleAssign Vec2.yx Rhs.aliased).bind
        (fun w => w.swizzleRead Vec2.yx) ≠ some (Vec2.mk 1 2 : Vec2 ℚ).array ∧
    Vec3.zxy ∈ Vec3.swizzles ∧ Vec3.zxy.Indexes.Nodup ∧
    (Vec3.mk 1 2 3 : Vec3 ℚ).swizzleAssign Vec3.zxy Rhs.aliased = some (Vec3.mk 2 1 1) ∧
    (Vec3.mk 2 1 1 : Vec3 ℚ).swizzleRead Vec3.zxy = some [1, 2, 1] ∧
    ((Vec3.mk 1 2 3 : Vec3 ℚ).swizzleAssign Vec3.zxy Rhs.aliased).bind
        (fun w => w.swizzleRead Vec3.zxy) ≠ some (Vec3.mk 1 2 3 : Vec3 ℚ).array ∧
    ((Vec3.mk 1 2 3 : Vec3 ℚ).swizzleAssign Vec3.zxy Rhs.aliased).bind
        (fun w => w.swizzleRead Vec3.zxy) ≠ some (Vec3.mk 2 1 1 : Vec3 ℚ).array := by
  have e2 : ((Vec2.mk 1 2 : Vec2 ℚ).swizzleAssign Vec2.yx Rhs.aliased).bind
      (fun w => w.swizzleRead Vec2.yx) = some [1, 1] := rfl
  have e3 : ((Vec3.mk 1 2 3 : Vec3 ℚ).swizzleAssign Vec3.zxy Rhs.aliased).bind
      (fun w => w.swizzleRead Vec3.zxy) = some [1, 2, 1] := rfl
  refine ⟨by decide, by decide, rfl, rfl, ?_, by decide, by decide, rfl, rfl, ?_, ?_⟩
  · rw [e2]
    norm_num [Vec2.array]
  · rw [e3]
    norm_num [Vec3.array]
  · rw [e3]
    norm_num [Vec3.array]

/-- C16, amended: for every swizzle accessor of `Vec2` and of `Vec3` whose
indices are pairwise distinct (`xy`, `yx`, `xyz`, `xzy`, `yzx`, `yxz`, `zxy`,
`zyx`), every backing aggregate `v` and every right-hand side that is an
aggregate of its own (not `v` itself and not the reference returned by an
earlier swizzle assignment to `v`), reading the swizzle immediately after
assigning `rhs` through it returns exactly `rhs`; for an accessor with a
repeated index the read differs from every such `rhs` whose components are
pairwise distinct, and for `xxy` with `rhs = {1,2,3}` the read is `{2,2,3}`. -/
theorem C16_read_after_assign (sw : Swizzler) (v2 : Vec2 α) (v3 : Vec3 α) (rhs : List α)
    (hrhs : rhs.length = sw.Count) :
    (sw ∈ Vec2.swizzles → sw.Indexes.Nodup →
      ∃ w, v2.swizzleAssign sw (Rhs.separate rhs) = some w ∧ w.swizzleRead sw = some rhs) ∧
    (sw ∈ Vec3.swizzles → sw.Indexes.Nodup →
      ∃ w, v3.swizzleAssign sw (Rhs.separate rhs) = some w ∧ w.swizzleRead sw = some rhs) ∧
    (sw ∈ Vec2.swizzles → ¬ sw.Indexes.Nodup → rhs.Nodup →
      ∃ w out, v2.swizzleAssign sw (Rhs.separate rhs) = some w ∧ w.swizzleRead sw = some out ∧ out ≠ rhs) ∧
    (sw ∈ Vec3.swizzles → ¬ sw.Indexes.Nodup → rhs.Nodup →
      ∃ w out, v3.swizzleAssign sw (Rhs.separate rhs) = some w ∧ w.swizzleRead sw = some out ∧ out ≠ rhs) ∧
    Vec2.swizzles.filter (fun s => decide s.Indexes.Nodup) = [Vec2.xy, Vec2.yx] ∧
    Vec3.swizzles.filter (fun s => decide s.Indexes.Nodup)
      = [Vec3.xy, Vec3.yx, Vec3.xyz, Vec3.xzy, Vec3.yzx, Vec3.yxz, Vec3.zxy, Vec3.zyx] ∧
    (∀ a b c : ℚ,
      ((Vec3.mk a b c).swizzleAssign Vec3.xxy (Rhs.separate [1, 2, 3])).bind
          (fun w => w.swizzleRead Vec3.xxy)
        = some [2, 2, 3]) := by
  refine ⟨?_, ?_, ?_, ?_, by decide, by decide, fun _ _ _ => rfl⟩
  · intro hsw hnd
    obtain ⟨hcount, hidx⟩ := Vec2.swizzles_bounds_vec2 sw hsw
    obtain ⟨w, out, hw, hwl, hout, _, h1, _⟩ := sw.read_after_assign v2.array rhs hrhs hidx hcount
    obtain ⟨u, hu, hua⟩ := Vec2.ofArray_of_length_vec2 w hwl
    exact ⟨u, by simp [Vec2.swizzleAssign, hw, hu], by rw [Vec2.swizzleRead, hua, hout, h1 hnd]⟩
  · intro hsw hnd
    obtain ⟨hcount, hidx⟩ := Vec3.swizzles_bounds_vec3 sw hsw
    obtain ⟨w, out, hw, hwl, hout, _, h1, _⟩ := sw.read_after_assign v3.array rhs hrhs hidx hcount
    obtain ⟨u, hu, hua⟩ := Vec3.ofArray_of_length_vec3 w hwl
    exact ⟨u, by simp [Vec3.swizzleAssign, hw, hu], by rw [Vec3.swizzleRead, hua, hout, h1 hnd]⟩
  · intro hsw hnd hrn
    obtain ⟨hcount, hidx⟩ := Vec2.swizzles_bounds_vec2 sw hsw
    obtain ⟨w, out, hw, hwl, hout, _, _, h2⟩ := sw.read_after_assign v2.array rhs hrhs hidx hcount
    obtain ⟨u, hu, hua⟩ := Vec2.ofArray_of_length_vec2 w hwl
    exact ⟨u, out, by simp [Vec2.swizzleAssign, hw, hu], by rw [Vec2.swizzleRead, hua, hout],
      h2 hnd hrn⟩
  · intro hsw hnd hrn
    obtain ⟨hcount, hidx⟩ := Vec3.swizzles_bounds_vec3 sw hsw
    obtain ⟨w, out, hw, hwl, hout, _, _, h2⟩ := sw.read_after_assign v3.array rhs hrhs hidx hcount
    obtain ⟨u, hu, hua⟩ := Vec3.ofArray_of_length_vec3 w hwl
    exact ⟨u, out, by simp [Vec3.swizzleAssign, hw, hu], by rw [Vec3.swizzleRead, hua, hout],
      h2 hnd hrn⟩

/-- Witness for C16: the accessor `zyx` of `Vec3` on `{1,2,3}` with `{7,8,9}`
(distinct indices), and the accessor `xxy` with the same operands (index 0
repeated). -/
theorem C16_read_after_assign_witness :
    ([7, 8, 9] : List ℚ).length = Vec3.zyx.Count ∧ Vec3.zyx ∈ Vec3.swizzles ∧
    Vec3.zyx.Indexes.Nodup ∧
    (∃ w, (Vec3.mk 1 2 3 : Vec3 ℚ).swizzleAssign Vec3.zyx (Rhs.separate [7, 8, 9]) = some w ∧
      w.swizzleRead Vec3.zyx = some [7, 8, 9]) ∧
    Vec3.xxy ∈ Vec3.swizzles ∧ ¬ Vec3.xxy.Indexes.Nodup ∧ ([7, 8, 9] : List ℚ).Nodup ∧
    (∃ w out, (Vec3.mk 1 2 3 : Vec3 ℚ).swizzleAssign Vec3.xxy (Rhs.separate [7, 8, 9]) = some w ∧
      w.swizzleRead Vec3.xxy = some out ∧ out ≠ [7, 8, 9]) :=
  ⟨rfl, by decide, by decide,
   (C16_read_after_assign Vec3.zyx (Vec2.mk 1 2 : Vec2 ℚ) (Vec3.mk 1 2 3 : Vec3 ℚ)
      ([7, 8, 9] : List ℚ) rfl).2.1 (by decide) (by decide),
   by decide, by decide, by norm_num,
   (C16_read_after_assign Vec3.xxy (Vec2.mk 1 2 : Vec2 ℚ) (Vec3.mk 1 2 3 : Vec3 ℚ)
      ([7, 8, 9] : List ℚ) rfl).2.2.2.1 (by decide) (by decide) (by norm_num)⟩

/-- C17: the value of a swizzle assignment expression is the backing storage
viewed in natural component order after the write (its first `K` components),
not `rhs` and not the permuted view: the result of `(v.yx = {a,b})` is the
aggregate `{b,a}`, the updated leading components `x, y` of `v`, and the result
of `(v.xy = {a,b})` is `{a,b}`. -/
theorem C17_assign_result (sw : Swizzler) (v2 : Vec2 α) (v3 : Vec3 α) (rhs : List α)
    (hrhs : rhs.length = sw.Count) (a b : α) :
    (sw ∈ Vec2.swizzles → ∃ w, v2.swizzleAssign sw (Rhs.separate rhs) = some w ∧
      sw.assignResult v2.array (Rhs.separate rhs) = some (w.array.take sw.Count)) ∧
    (sw ∈ Vec3.swizzles → ∃ w, v3.swizzleAssign sw (Rhs.separate rhs) = some w ∧
      sw.assignResult v3.array (Rhs.separate rhs) = some (w.array.take sw.Count)) ∧
    (Vec2.yx.assignResult v2.array (Rhs.separate [a, b])).bind Vec2.ofArray
      = some (Vec2.mk b a) ∧
    (Vec2.xy.assignResult v2.array (Rhs.separate [a, b])).bind Vec2.ofArray
      = some (Vec2.mk a b) ∧
    (Vec3.yx.assignResult v3.array (Rhs.separate [a, b])).bind Vec2.ofArray
      = some (Vec2.mk b a) ∧
    (Vec3.xy.assignResult v3.array (Rhs.separate [a, b])).bind Vec2.ofArray
      = some (Vec2.mk a b) ∧
    v3.swizzleAssign Vec3.yx (Rhs.separate [a, b]) = some (Vec3.mk b a v3.z) ∧
    (a ≠ b → Vec3.yx.assignResult v3.array (Rhs.separate [a, b]) ≠ some [a, b] ∧
      (v3.swizzleAssign Vec3.yx (Rhs.separate [a, b])).bind (fun w => w.swizzleRead Vec3.yx)
        = some [a, b] ∧
      Vec3.yx.assignResult v3.array (Rhs.separate [a, b])
        ≠ (v3.swizzleAssign Vec3.yx (Rhs.separate [a, b])).bind
            (fun w => w.swizzleRead Vec3.yx)) ∧
    (sw ∈ Vec2.swizzles → ∃ w, v2.swizzleAssign sw Rhs.aliased = some w ∧
      sw.assignResult v2.array Rhs.aliased = some (w.array.take sw.Count)) ∧
    (sw ∈ Vec3.swizzles → ∃ w, v3.swizzleAssign sw Rhs.aliased = some w ∧
      sw.assignResult v3.array Rhs.aliased = some (w.array.take sw.Count)) := by
  refine ⟨?_, ?_, rfl, rfl, rfl, rfl, rfl, ?_, ?_, ?_⟩
  rotate_left 3
  · intro hsw
    obtain ⟨w, hw, hwa, _⟩ := Vec2.swizzleAssign_aliased_vec2 v2 sw hsw
    exact ⟨w, hw, by simp [Swizzler.assignResult, hwa]⟩
  · intro hsw
    obtain ⟨w, hw, hwa, _⟩ := Vec3.swizzleAssign_aliased_vec3 v3 sw hsw
    exact ⟨w, hw, by simp [Swizzler.assignResult, hwa]⟩
  · intro hsw
    obtain ⟨hcount, hidx⟩ := Vec2.swizzles_bounds_vec2 sw hsw
    obtain ⟨out, hout, hl, _⟩ := sw.assign_spec v2.array rhs hrhs hidx hcount
    obtain ⟨u, hu, hua⟩ := Vec2.ofArray_of_length_vec2 out hl
    exact ⟨u, by simp [Vec2.swizzleAssign, hout, hu], by simp [Swizzler.assignResult, hout, hua]⟩
  · intro hsw
    obtain ⟨hcount, hidx⟩ := Vec3.swizzles_bounds_vec3 sw hsw
    obtain ⟨out, hout, hl, _⟩ := sw.assign_spec v3.array rhs hrhs hidx hcount
    obtain ⟨u, hu, hua⟩ := Vec3.ofArray_of_length_vec3 out hl
    exact ⟨u, by simp [Vec3.swizzleAssign, hout, hu], by simp [Swizzler.assignResult, hout, hua]⟩
  · intro hab
    have hres : Vec3.yx.assignResult v3.array (Rhs.separate [a, b]) = some [b, a] := rfl
    have hread :
        (v3.swizzleAssign Vec3.yx (Rhs.separate [a, b])).bind (fun w => w.swizzleRead Vec3.yx)
          = some [a, b] := rfl
    refine ⟨?_, hread, ?_⟩
    · rw [hres]
      intro h
      have h2 : [b, a] = [a, b] := Option.some.inj h
      exact hab (List.cons.inj h2).1.symm
    · rw [hres, hread]
      intro h
      have h2 : [b, a] = [a, b] := Option.some.inj h
      exact hab (List.cons.inj h2).1.symm

/-- Witness for C17: the accessor `yx` of `Vec3` on `{1,2,3}` with `{7,8}`. -/
theorem C17_assign_result_witness :
    ([7, 8] : List ℚ).length = Vec3.yx.Count ∧ Vec3.yx ∈ Vec3.swizzles ∧ (7 : ℚ) ≠ 8 ∧
    Vec3.yx.assignResult (Vec3.mk 1 2 3 : Vec3 ℚ).array (Rhs.separate [7, 8]) = some [8, 7] ∧
    (∃ w, (Vec3.mk 1 2 3 : Vec3 ℚ).swizzleAssign Vec3.yx (Rhs.separate [7, 8]) = some w ∧
      Vec3.yx.assignResult (Vec3.mk 1 2 3 : Vec3 ℚ).array (Rhs.separate [7, 8])
        = some (w.array.take Vec3.yx.Count)) ∧
    Vec3.yx.assignResult (Vec3.mk 1 2 3 : Vec3 ℚ).array (Rhs.separate [7, 8]) ≠ some [7, 8] :=
  ⟨rfl, by decide, by norm_num, rfl,
   (C17_assign_result Vec3.yx (Vec2.mk 1 2 : Vec2 ℚ) (Vec3.mk 1 2 3 : Vec3 ℚ)
      ([7, 8] : List ℚ) rfl 7 8).2.1 (by decide),
   ((C17_assign_result Vec3.yx (Vec2.mk 1 2 : Vec2 ℚ) (Vec3.mk 1 2 3 : Vec3 ℚ)
      ([7, 8] : List ℚ) rfl 7 8).2.2.2.2.2.2.2.1 (by norm_num)).1⟩

end LaterTheorems

end Raymath
